import Mathlib

/-!
# CliThread.c : the command console task

A shallow embedding of `vCommandConsoleTask` (CliThread.c, lines 87-238) and of
the LED command handler.  Bytes are natural numbers, C arrays are lists whose
length is the declared array size, and C strings are read up to their first
zero byte.  `MAX_INPUT_LENGTH_CLI` and `MAX_OUTPUT_LENGTH_CLI` come from the
header `CliThread.h`, which is not part of the sources at hand: they are the
parameters `MI` and `MO` of every definition that uses them.
-/

namespace CliThread

/-! ## Constants of the missing header -/

/-- Modelled from the spec: `ASCII_BACKSPACE` is defined in the missing header;
the spec gives backspace as 0x08. -/
def ASCII_BACKSPACE : Nat := 0x08

/-- Modelled from the spec: `ASCII_DELETE` is defined in the missing header;
the spec gives delete as 0x7F. -/
def ASCII_DELETE : Nat := 0x7F

/-- Modelled from the spec: `ASCII_ESC` is defined in the missing header;
the spec gives the escape introducer as 0x1B. -/
def ASCII_ESC : Nat := 0x1B

/-- Modelled from the spec: `CLI_PC_ESCAPE_CODE_SIZE` is defined in the missing
header; the spec bounds the collected sequence by 4 bytes, which is also the
declared size of `pcEscapeCodes` (line 103). -/
def CLI_PC_ESCAPE_CODE_SIZE : Nat := 4

/-- Modelled from the spec: `CLI_PC_MIN_ESCAPE_CODE_SIZE` is defined in the
missing header; the minimum recognised length is two follow bytes. -/
def CLI_PC_MIN_ESCAPE_CODE_SIZE : Nat := 2

/-! ## The C library functions the task uses -/

/-- The bytes of a C string: everything before the first zero byte.  A list
without a zero byte is read to its end. -/
def cstr : List Nat → List Nat
  | [] => []
  | b :: bs => if b = 0 then [] else b :: cstr bs

/-- C `strlen`: the index of the first zero byte. -/
def strlen : List Nat → Nat
  | [] => 0
  | b :: bs => if b = 0 then 0 else strlen bs + 1

/-- C `strncpy(dst, src, n)`: the first `n` bytes of `dst` receive the bytes of
the string `src`, padded with zero bytes once `src` has ended; the bytes of
`dst` from index `n` on are kept.  Nothing is written past the end of `dst`. -/
def strncpy : List Nat → List Nat → Nat → List Nat
  | [], _, _ => []
  | d :: ds, _, 0 => d :: ds
  | _ :: ds, [], n + 1 => 0 :: strncpy ds [] n
  | _ :: ds, s :: ss, n + 1 =>
    if s = 0 then 0 :: strncpy ds [] n else s :: strncpy ds ss n

/-- C `memset(buf, 0x00, n)` on an array of `n` bytes. -/
def memsetZero (n : Nat) : List Nat := List.replicate n 0

/-- Store the bytes `src` into `dst` from its first element on, as `sprintf`
does with its output; nothing is written past the end of `dst`. -/
def writeBytes : List Nat → List Nat → List Nat
  | [], _ => []
  | d :: ds, [] => d :: ds
  | _ :: ds, s :: ss => s :: writeBytes ds ss

/-- C `tolower` in the C locale. -/
def tolower (b : Nat) : Nat := if 65 ≤ b ∧ b ≤ 90 then b + 32 else b

/-- C `strcasecmp`: zero exactly when the two strings are equal up to the case
of letters, else the difference of the first two lowered bytes that differ.
The end of a list counts as the terminating zero byte. -/
def strcasecmp : List Nat → List Nat → Int
  | [], [] => 0
  | [], b :: _ => if b = 0 then 0 else - (tolower b : Int)
  | a :: _, [] => if a = 0 then 0 else (tolower a : Int)
  | a :: as, b :: bs =>
    if tolower a = tolower b then
      (if a = 0 then 0 else strcasecmp as bs)
    else (tolower a : Int) - (tolower b : Int)

/-- The string literal `"oa"` of line 179, with its terminating zero byte. -/
def escapeUp : List Nat := [111, 97, 0]

/-- The output of `sprintf(pcInputString, "%c[2K\r>", 27)` (line 181), with its
terminating zero byte. -/
def clearLinePrompt : List Nat := [27, 91, 50, 75, 13, 62, 0]

/-- The string `pcWelcomeMessage` of lines 26-27, with its terminating zero
byte: `FreeRTOS CLI.` and `Type Help to view a list of registered commands.`,
each followed by CR LF. -/
def pcWelcomeMessage : List Nat :=
  [70, 114, 101, 101, 82, 84, 79, 83, 32, 67, 76, 73, 46, 13, 10, 84, 121, 112, 101, 32,
   72, 101, 108, 112, 32, 116, 111, 32, 118, 105, 101, 119, 32, 97, 32, 108, 105, 115, 116,
   32, 111, 102, 32, 114, 101, 103, 105, 115, 116, 101, 114, 101, 100, 32, 99, 111, 109,
   109, 97, 110, 100, 115, 46, 13, 10, 0]

/-- The array `erase` of line 205. -/
def eraseSeq : List Nat := [0x08, 0x20, 0x08, 0x00]

/-! ## The command interpreter, seen from the task -/

/-- What one call of `FreeRTOS_CLIProcessCommand` leaves behind: its own
(static) state, the command string buffer (handlers terminate their parameters
in place), the output buffer and the returned `xMoreDataToFollow != pdFALSE`. -/
structure CliResult (σ : Type) where
  cli : σ
  input : List Nat
  output : List Nat
  more : Bool

/-- The interpreter `FreeRTOS_CLIProcessCommand(pcInputString, pcOutputString,
MAX_OUTPUT_LENGTH_CLI)` as the task sees it: it is not part of CliThread.c and
stays a parameter. -/
abbrev Interp (σ : Type) := σ → List Nat → List Nat → Nat → CliResult σ

/-! ## The state of the task -/

/-- The variables of `vCommandConsoleTask` (lines 97-104), the transport as the
list of strings handed to `SerialConsoleWriteString`, the state of the command
interpreter and the list of command buffers it was invoked on. -/
structure State (σ : Type) where
  cInputIndex : Nat
  pcOutputString : List Nat
  pcInputString : List Nat
  pcLastCommand : List Nat
  isEscapeCode : Bool
  pcEscapeCodes : List Nat
  pcEscapeCodePos : Nat
  tx : List (List Nat)
  cli : σ
  calls : List (List Nat)

/-- The state on entry to the `for(;;)` loop: zero-initialised statics, and the
transport holding the welcome message written on line 111. -/
def State.init {σ : Type} (MI MO : Nat) (s : σ) : State σ :=
  { cInputIndex := 0
    pcOutputString := List.replicate MO 0
    pcInputString := List.replicate MI 0
    pcLastCommand := List.replicate MI 0
    isEscapeCode := false
    pcEscapeCodes := List.replicate 4 0
    pcEscapeCodePos := 0
    tx := [cstr pcWelcomeMessage]
    cli := s
    calls := [] }

/-- The arrays of a state have their declared sizes. -/
def State.Sized {σ : Type} (MI MO : Nat) (st : State σ) : Prop :=
  st.pcInputString.length = MI ∧ st.pcLastCommand.length = MI ∧
  st.pcOutputString.length = MO ∧ st.pcEscapeCodes.length = 4

instance {σ : Type} (MI MO : Nat) (st : State σ) : Decidable (st.Sized MI MO) := by
  unfold State.Sized
  infer_instance

/-! ## The loop body -/

/-- The body of the `do ... while` loop, lines 140-151: one interpreter call,
the zero byte stored at the end of the output buffer and the flush. -/
def dispatchOnce {σ : Type} (MO : Nat) (interp : Interp σ) (st : State σ) : State σ :=
  let r := interp st.cli st.pcInputString st.pcOutputString MO
  let out := r.output.set (MO - 1) 0
  { st with
    cli := r.cli
    calls := st.calls ++ [st.pcInputString]
    pcInputString := r.input
    pcOutputString := out
    tx := st.tx ++ [cstr out] }

/-- The `do ... while` loop of lines 135-153.  `fuel` bounds the number of
interpreter calls; `none` means the bound was reached with more output still
announced. -/
def dispatchLoop {σ : Type} (MO : Nat) (interp : Interp σ) :
    Nat → State σ → Option (State σ)
  | 0, _ => none
  | fuel + 1, st =>
    if (interp st.cli st.pcInputString st.pcOutputString MO).more then
      dispatchLoop MO interp fuel (dispatchOnce MO interp st)
    else some (dispatchOnce MO interp st)

/-- Lines 126-130: the line break, the reset of the escape detector and the
snapshot of the input buffer into `pcLastCommand`. -/
def snapshot {σ : Type} (MI : Nat) (st : State σ) : State σ :=
  { st with
    tx := st.tx ++ [cstr [13, 10, 0]]
    isEscapeCode := false
    pcEscapeCodePos := 0
    pcLastCommand := (strncpy st.pcLastCommand st.pcInputString (MI - 1)).set (MI - 1) 0 }

/-- Lines 158-159: the input buffer is cleared after the dispatch loop. -/
def clearInput {σ : Type} (MI : Nat) (st : State σ) : State σ :=
  { st with cInputIndex := 0, pcInputString := memsetZero MI }

/-- The branch of lines 121-160, taken on `'\n'` or `'\r'`. -/
def lineComplete {σ : Type} (MI MO : Nat) (interp : Interp σ) (fuel : Nat)
    (st : State σ) : Option (State σ) :=
  (dispatchLoop MO interp fuel (snapshot MI st)).map (clearInput MI)

/-- The history recall of lines 181-189. -/
def historyRecall {σ : Type} (MI : Nat) (st : State σ) : State σ :=
  let prompt := writeBytes st.pcInputString clearLinePrompt
  let recalled := strncpy (memsetZero MI) st.pcLastCommand (MI - 1)
  { st with
    pcInputString := recalled
    cInputIndex :=
      (if strlen recalled < MI - 1 then strlen st.pcLastCommand else MI - 1) % 256
    tx := st.tx ++ [cstr prompt] ++ [cstr recalled] }

/-- Lines 169-174: the follow byte is collected, or the detector is reset when
the collection is full. -/
def escapeCollect {σ : Type} (c : Nat) (st : State σ) : State σ :=
  if st.pcEscapeCodePos < CLI_PC_ESCAPE_CODE_SIZE then
    { st with
      pcEscapeCodes := st.pcEscapeCodes.set st.pcEscapeCodePos c
      pcEscapeCodePos := (st.pcEscapeCodePos + 1) % 256 }
  else
    { st with isEscapeCode := false, pcEscapeCodePos := 0 }

/-- Lines 176-193: once enough follow bytes are collected, the test of line 179
and the reset of the detector. -/
def escapeDecide {σ : Type} (MI : Nat) (st : State σ) : State σ :=
  if CLI_PC_MIN_ESCAPE_CODE_SIZE ≤ st.pcEscapeCodePos then
    let st1 := if strcasecmp st.pcEscapeCodes escapeUp ≠ 0 then historyRecall MI st else st
    { st1 with isEscapeCode := false, pcEscapeCodePos := 0 }
  else st

/-- The branch of lines 167-194, taken while `isEscapeCode` is set. -/
def escapeFollow {σ : Type} (MI : Nat) (c : Nat) (st : State σ) : State σ :=
  escapeDecide MI (escapeCollect c st)

/-- The branch of lines 203-214: backspace or delete. -/
def eraseChar {σ : Type} (st : State σ) : State σ :=
  let st1 : State σ := { st with tx := st.tx ++ [cstr eraseSeq] }
  if 0 < st1.cInputIndex then
    { st1 with
      cInputIndex := st1.cInputIndex - 1
      pcInputString := st1.pcInputString.set (st1.cInputIndex - 1) 0 }
  else st1

/-- The branch of lines 220-235: the byte is stored while there is room, and
echoed. -/
def storeChar {σ : Type} (MI : Nat) (c : Nat) (st : State σ) : State σ :=
  let st1 : State σ :=
    if st.cInputIndex < MI then
      { st with
        pcInputString := st.pcInputString.set st.cInputIndex c
        cInputIndex := (st.cInputIndex + 1) % 256 }
    else st
  { st1 with tx := st1.tx ++ [cstr [c, 0]] }

/-- The `else` branch of lines 161-236, taken on every byte that is neither
`'\n'` nor `'\r'`. -/
def otherChar {σ : Type} (MI : Nat) (c : Nat) (st : State σ) : State σ :=
  if st.isEscapeCode = true then escapeFollow MI c st
  else if c = 13 then st
  else if c = ASCII_BACKSPACE ∨ c = ASCII_DELETE then eraseChar st
  else if c = ASCII_ESC then { st with isEscapeCode := true, pcEscapeCodePos := 0 }
  else storeChar MI c st

/-- One iteration of the `for(;;)` loop on a received byte (lines 121-236). -/
def step {σ : Type} (MI MO : Nat) (interp : Interp σ) (fuel : Nat) (c : Nat)
    (st : State σ) : Option (State σ) :=
  if c = 10 ∨ c = 13 then lineComplete MI MO interp fuel st
  else some (otherChar MI c st)

/-- One iteration of the `for(;;)` loop (lines 117-236): `none` stands for
`SerialConsoleReadCharacter` returning -1, where the task only sleeps. -/
def loopIteration {σ : Type} (MI MO : Nat) (interp : Interp σ) (fuel : Nat)
    (recv : Option Nat) (st : State σ) : Option (State σ) :=
  match recv with
  | none => some st
  | some c => step MI MO interp fuel c st

/-- The loop run over the received bytes, each line completion being given
`fuel` interpreter calls. -/
def run {σ : Type} (MI MO : Nat) (interp : Interp σ) (fuel : Nat) :
    List Nat → State σ → Option (State σ)
  | [], st => some st
  | c :: cs, st => (step MI MO interp fuel c st).bind (run MI MO interp fuel cs)

/-- The task `vCommandConsoleTask` (lines 87-238) from its entry, over the
bytes it receives; `s` is the state of the command interpreter once the
commands are registered (lines 91-95). -/
def vCommandConsoleTask {σ : Type} (MI MO : Nat) (interp : Interp σ) (fuel : Nat) (s : σ)
    (bytes : List Nat) : Option (State σ) :=
  run MI MO interp fuel bytes (State.init MI MO s)

/-- A byte the line assembler stores: none of CR, LF, backspace, delete, ESC. -/
def isOrdinary (c : Nat) : Bool :=
  c ≠ 13 && c ≠ 10 && c ≠ ASCII_BACKSPACE && c ≠ ASCII_DELETE && c ≠ ASCII_ESC

/-- The interpreter announces more output on its next `k` calls exactly up to
the last one: calls 1 to `k - 1` return `pdTRUE` and call `k` returns
`pdFALSE`, each call seeing the buffers the previous one left. -/
def finishesIn {σ : Type} (MO : Nat) (interp : Interp σ) :
    Nat → σ → List Nat → List Nat → Bool
  | 0, _, _, _ => false
  | k + 1, s, inp, out =>
    let r := interp s inp out MO
    if r.more then finishesIn MO interp k r.cli r.input (r.output.set (MO - 1) 0)
    else k == 0

/-- The output buffers flushed by the first `k` interpreter calls, in call
order, each with its last byte zeroed as on line 150. -/
def flushed {σ : Type} (MO : Nat) (interp : Interp σ) :
    Nat → σ → List Nat → List Nat → List (List Nat)
  | 0, _, _, _ => []
  | k + 1, s, inp, out =>
    let r := interp s inp out MO
    let o := r.output.set (MO - 1) 0
    o :: flushed MO interp k r.cli r.input o

/-- The array of `n` bytes that holds the string `s` cut to `n - 1` bytes and
padded with zero bytes. -/
def cArray (n : Nat) (s : List Nat) : List Nat :=
  s.take (n - 1) ++ List.replicate (n - (s.take (n - 1)).length) 0

/-- The line assembler applied to a run of stored bytes. -/
def typeAll {σ : Type} (MI : Nat) (bytes : List Nat) (st : State σ) : State σ :=
  bytes.foldl (fun s c => storeChar MI c s) st

/-- The line assembler applied to `n` backspace bytes. -/
def eraseAll {σ : Type} : Nat → State σ → State σ
  | 0, st => st
  | n + 1, st => eraseAll n (eraseChar st)

/-- The invariant of the `for(;;)` loop: the arrays have their sizes, the cursor
is inside the input buffer, every input byte from the cursor on is zero, the
string in `pcLastCommand` ends before the last byte of the array, and fewer
than `CLI_PC_MIN_ESCAPE_CODE_SIZE` follow bytes are collected. -/
def State.Inv {σ : Type} (MI : Nat) (st : State σ) : Prop :=
  st.pcInputString.length = MI ∧ st.pcLastCommand.length = MI ∧
  st.cInputIndex ≤ MI ∧
  (∀ i, i < MI → st.cInputIndex ≤ i → st.pcInputString[i]? = some 0) ∧
  strlen st.pcLastCommand ≤ MI - 1 ∧
  st.pcEscapeCodePos < CLI_PC_MIN_ESCAPE_CODE_SIZE

/-- The states the task can be in at the top of its loop: those reached from
the entry state by some sequence of received bytes. -/
def Reachable {σ : Type} (MI MO : Nat) (interp : Interp σ) (st : State σ) : Prop :=
  ∃ (fuel : Nat) (bytes : List Nat) (s : σ),
    vCommandConsoleTask MI MO interp fuel s bytes = some st

/-! ## The command interpreter and the LED command -/

/-- A call made to the Seesaw LED driver. -/
inductive DevCall where
  | setLed (key r g b : Nat)
  | orderLedUpdate
  deriving DecidableEq

/-- What lies outside the console task: the calls made to the LED driver so
far, the handlers invoked so far (by command name), whether a handler has
dereferenced a parameter that is not there, and the name of a command whose
handler has announced more output. -/
structure World where
  leds : List DevCall
  invoked : List (List Nat)
  fault : Bool
  pending : Option (List Nat)
  deriving DecidableEq

/-- A command handler `BaseType_t f(int8_t *pcWriteBuffer, size_t
xWriteBufferLen, const int8_t *pcCommandString)`. -/
abbrev Handler := World → List Nat → Nat → List Nat → CliResult World

/-- C `isspace` in the C locale. -/
def isWhitespace (b : Nat) : Bool := b = 32 || (9 ≤ b && b ≤ 13)

/-- The whitespace-delimited tokens of a C string as (offset, length) pairs;
`off` is the offset of the head of the list and `cur` the token being read. -/
def tokenSpans : List Nat → Nat → Option (Nat × Nat) → List (Nat × Nat)
  | [], _, cur => cur.toList
  | b :: bs, off, cur =>
    if b = 0 then cur.toList
    else if isWhitespace b then cur.toList ++ tokenSpans bs (off + 1) none
    else
      match cur with
      | none => tokenSpans bs (off + 1) (some (off, 1))
      | some (o, l) => tokenSpans bs (off + 1) (some (o, l + 1))

/-- Modelled from the spec: `FreeRTOS_CLIGetParameter` is not part of
CliThread.c.  Parameter `n` is token `n + 1` of the line, given as a view into
the line (offset and length); `none` stands for the null pointer returned when
the line has no such token. -/
def FreeRTOS_CLIGetParameter (pcCommandString : List Nat) (n : Nat) : Option (Nat × Nat) :=
  (tokenSpans pcCommandString 0 none).get? n

/-- The digits read by C `atoi`, accumulated in `acc`. -/
def atoiDigits : List Nat → Nat → Nat
  | [], acc => acc
  | b :: bs, acc => if 48 ≤ b ∧ b ≤ 57 then atoiDigits bs (acc * 10 + (b - 48)) else acc

/-- The integer written at the start of a string, as `strtol` reads it in base
10 before any range check: leading whitespace, an optional sign, then decimal
digits; 0 when there is no digit. -/
def signedDigits (s : List Nat) : Int :=
  match s.dropWhile isWhitespace with
  | 45 :: r => - (atoiDigits r 0 : Int)
  | 43 :: r => (atoiDigits r 0 : Int)
  | r => (atoiDigits r 0 : Int)

/-- The largest C `long`, taken as 64 bits wide. -/
def LONG_MAX : Int := 9223372036854775807

/-- The smallest C `long`, taken as 64 bits wide. -/
def LONG_MIN : Int := -9223372036854775808

/-- C `strtol(s, NULL, 10)`: the integer written at the start of the string,
replaced by `LONG_MAX` or `LONG_MIN` when it is beyond the range of `long`. -/
def strtol10 (s : List Nat) : Int :=
  if LONG_MAX < signedDigits s then LONG_MAX
  else if signedDigits s < LONG_MIN then LONG_MIN
  else signedDigits s

/-- The conversion of a `long` to a 32-bit `int`: the low 32 bits, read in
two's complement. -/
def toInt32 (x : Int) : Int := (x + 2147483648) % 4294967296 - 2147483648

/-- C `atoi`, which the C library computes as `(int) strtol(s, NULL, 10)`.  The
C standard leaves the result undefined when the number is not an `int`; with
this library a number beyond the range of `long` saturates, so that a huge
positive parameter converts to the `uint8_t` 255 and a huge negative one to 0.
Where `long` has 32 bits the saturation is at the bounds of `int`; the two
widths give the same `int` for every number within the range of `int`, and the
same `uint8_t` for every number beyond the range of a 64-bit `long`. -/
def atoi (s : List Nat) : Int := toInt32 (strtol10 s)

/-- The conversion of an `int` to `uint8_t`. -/
def toUint8 (x : Int) : Nat := (x % 256).toNat

/-- The bytes printed by `%u`. -/
def fmtU (n : Nat) : List Nat := (Nat.toDigits 10 n).map Char.toNat

/-- C `snprintf(buf, len, ...)` once the format is expanded to the bytes `s`:
at most `len - 1` bytes of `s` are stored, then a zero byte; nothing is stored
when `len` is 0. -/
def snprintf (buf : List Nat) (len : Nat) (s : List Nat) : List Nat :=
  if len = 0 then buf else writeBytes buf (s.take (len - 1) ++ [0])

/-- Modelled from the spec: `ERROR_NONE` is defined in a missing header; the
spec only distinguishes success from error, and success is taken as 0. -/
def ERROR_NONE : Int := 0

/-- The text `"Neo Error!\r\n"` of line 334. -/
def neoErrorText : List Nat := [78, 101, 111, 32, 69, 114, 114, 111, 114, 33, 13, 10]

/-- The expansion of `"Success! Key:%u R:%u G:%u B:%u\r\n "` (line 343). -/
def successText (key_num red green blue : Nat) : List Nat :=
  [83, 117, 99, 99, 101, 115, 115, 33, 32, 75, 101, 121, 58] ++ fmtU key_num ++
  [32, 82, 58] ++ fmtU red ++ [32, 71, 58] ++ fmtU green ++ [32, 66, 58] ++ fmtU blue ++
  [13, 10, 32]

/-- The handler `CLI_NeotrellisSetLed` (lines 311-345).  `SeesawSetLed` is an
external driver call: its return value is the parameter `seesawSetLed`, and the
call is recorded in the world.  A parameter that is missing is a null pointer,
and line 321-324 would store through it: this is recorded as a fault. -/
def CLI_NeotrellisSetLed (seesawSetLed : Nat → Nat → Nat → Nat → Int) : Handler :=
  fun w pcWriteBuffer xWriteBufferLen pcCommandString =>
    match FreeRTOS_CLIGetParameter pcCommandString 1,
        FreeRTOS_CLIGetParameter pcCommandString 2,
        FreeRTOS_CLIGetParameter pcCommandString 3,
        FreeRTOS_CLIGetParameter pcCommandString 4 with
    | some p1, some p2, some p3, some p4 =>
      let cmd := (((pcCommandString.set (p1.1 + p1.2) 0).set (p2.1 + p2.2) 0).set
        (p3.1 + p3.2) 0).set (p4.1 + p4.2) 0
      let key_num := toUint8 (atoi (cmd.drop p1.1))
      let red := toUint8 (atoi (cmd.drop p2.1))
      let green := toUint8 (atoi (cmd.drop p3.1))
      let blue := toUint8 (atoi (cmd.drop p4.1))
      let error := seesawSetLed key_num red green blue
      let w1 : World := { w with leds := w.leds ++ [DevCall.setLed key_num red green blue] }
      if ERROR_NONE ≠ error then
        { cli := w1, input := cmd
          output := snprintf pcWriteBuffer xWriteBufferLen neoErrorText, more := false }
      else
        { cli := { w1 with leds := w1.leds ++ [DevCall.orderLedUpdate] }, input := cmd
          output := snprintf pcWriteBuffer xWriteBufferLen (successText key_num red green blue)
          more := false }
    | _, _, _, _ =>
      { cli := { w with fault := true }, input := pcCommandString, output := pcWriteBuffer
        more := false }

/-- A command descriptor `CLI_Command_Definition_t`: name, help text, handler
and expected number of parameters (negative: any number). -/
structure CommandDescriptor where
  name : List Nat
  help : List Nat
  handler : Handler
  expected : Int

/-- The descriptor `xNeotrellisTurnLEDCommand` (lines 47-53): the command
`led`, with four parameters. -/
def xNeotrellisTurnLEDCommand (seesawSetLed : Nat → Nat → Nat → Nat → Int) :
    CommandDescriptor :=
  { name := [108, 101, 100]
    help := []
    handler := CLI_NeotrellisSetLed seesawSetLed
    expected := 4 }

/-- Modelled from the spec: the registry lookup is not part of CliThread.c.
The first registered descriptor whose name is exactly the given token. -/
def lookup (registry : List CommandDescriptor) (name : List Nat) : Option CommandDescriptor :=
  registry.find? (fun d => d.name == name)

/-- The texts the dispatcher answers with when it does not run a handler. -/
structure ErrorTexts where
  notFound : List Nat
  argumentCount : List Nat

/-- Modelled from the spec: `FreeRTOS_CLIProcessCommand` is not part of
CliThread.c.  The first token of the line selects the command by registry
lookup; an unknown command is answered with the not-found text; a command
with a fixed parameter count that is given fewer parameters is answered with
the argument-count text and its handler is not invoked; else the handler is
invoked.  A handler that announced more output is invoked again on the next
call. -/
def FreeRTOS_CLIProcessCommand (registry : List CommandDescriptor) (texts : ErrorTexts) :
    Interp World :=
  fun w pcCommandInput pcWriteBuffer xWriteBufferLen =>
    let invoke (d : CommandDescriptor) : CliResult World :=
      let r := d.handler { w with invoked := w.invoked ++ [d.name] } pcWriteBuffer
        xWriteBufferLen pcCommandInput
      { r with cli := { r.cli with pending := if r.more then some d.name else none } }
    let reject (text : List Nat) : CliResult World :=
      { cli := { w with pending := none }, input := pcCommandInput
        output := snprintf pcWriteBuffer xWriteBufferLen text, more := false }
    match w.pending.bind (lookup registry) with
    | some d => invoke d
    | none =>
      match tokenSpans pcCommandInput 0 none with
      | [] => reject texts.notFound
      | (o, l) :: params =>
        match lookup registry ((pcCommandInput.drop o).take l) with
        | none => reject texts.notFound
        | some d =>
          if 0 ≤ d.expected ∧ (params.length : Int) < d.expected then
            reject texts.argumentCount
          else invoke d

/-- The name of the command a line selects and the number of its parameters. -/
def commandOf (line : List Nat) : Option (List Nat × Nat) :=
  match tokenSpans line 0 none with
  | [] => none
  | (o, l) :: params => some ((line.drop o).take l, params.length)

/-- A decimal digit. -/
def isDigit (b : Nat) : Bool := 48 ≤ b && b ≤ 57

/-- The number written by a string of decimal digits. -/
def digitsValue (ds : List Nat) : Nat := ds.foldl (fun acc d => acc * 10 + (d - 48)) 0

/-- The number written by the digits `ds` with the sign `sign`, when there is
at least one digit, nothing but digits, and the number is a C `int`. -/
def signedValue (sign : Int) (ds : List Nat) : Option Int :=
  if ds ≠ [] ∧ ds.all isDigit = true ∧
      -2147483648 ≤ sign * (digitsValue ds : Int) ∧ sign * (digitsValue ds : Int) ≤ 2147483647
  then some (sign * (digitsValue ds : Int)) else none

/-- The integer a token denotes when it is a decimal integer: an optional sign
followed by decimal digits, within the range of a C `int`. -/
def decimalInt : List Nat → Option Int
  | [] => none
  | b :: ds =>
    if b = 45 then signedValue (-1) ds
    else if b = 43 then signedValue 1 ds
    else signedValue 1 (b :: ds)

/-- The digits `ds` are the decimal numeral of `n`: at least one digit, nothing
but digits, the value `n`, and no leading zero except in the numeral `0`. -/
def isDecimalOf (ds : List Nat) (n : Nat) : Bool :=
  !ds.isEmpty && ds.all isDigit && digitsValue ds == n &&
    (ds.length == 1 || ds.head? != some 48)

/-- The token of a line that a span (offset, length) designates. -/
def tokenAt (line : List Nat) (span : Nat × Nat) : List Nat :=
  (line.drop span.1).take span.2

/-- The command string after lines 321-324: a zero byte stored right after
each of the four parameters. -/
def terminated (pcCommandString : List Nat) (p1 p2 p3 p4 : Nat × Nat) : List Nat :=
  (((pcCommandString.set (p1.1 + p1.2) 0).set (p2.1 + p2.2) 0).set (p3.1 + p3.2) 0).set
    (p4.1 + p4.2) 0

/-- The value lines 326-329 give to `key_num`, `red`, `green` or `blue`: `atoi`
of the terminated parameter `p`, converted to `uint8_t`. -/
def parsedByte (pcCommandString : List Nat) (p1 p2 p3 p4 p : Nat × Nat) : Nat :=
  toUint8 (atoi ((terminated pcCommandString p1 p2 p3 p4).drop p.1))

/-! ## Concrete inputs used to evaluate the model -/

/-- The bytes of the line `led 0 255 0 0`. -/
def ledLine : List Nat := [108, 101, 100, 32, 48, 32, 50, 53, 53, 32, 48, 32, 48]

/-- An interpreter that never touches the command string and answers every
line with one chunk. -/
def oneChunk : Interp Unit :=
  fun s inp out _ => { cli := s, input := inp, output := writeBytes out [79, 75, 0], more := false }

/-- An interpreter whose handler streams three chunks per line: it counts its
calls and announces more output on the first and second call of every three. -/
def threeChunks : Interp Nat :=
  fun n inp out _ =>
    { cli := n + 1, input := inp, output := writeBytes out [65 + n % 3, 0], more := n % 3 < 2 }

/-- The task state with 16-byte input and 8-byte output buffers reached from
the entry state by typing `led 0 255 0 0`. -/
def ledTyped {σ : Type} (s : σ) : State σ :=
  typeAll 16 ledLine (State.init 16 8 s)

/-- The task state with 16-byte input and 8-byte output buffers reached from
the entry state by typing sixteen times `a`: the cursor is at
`MAX_INPUT_LENGTH_CLI`. -/
def fullBuffer : State Unit :=
  typeAll 16 (List.replicate 16 97) (State.init 16 8 ())

/-- The bytes received in the history scenario: `led 0 255 0 0`, CR, `ab`. -/
def ledThenAb : List Nat := ledLine ++ [13, 97, 98]

/-- What the claims on the escape detector observe of a state: detector
flag, collected count, number of interpreter calls, the strings in
`pcLastCommand` and in the input buffer, and the cursor. -/
def observe {σ : Type} (st : State σ) : Bool × Nat × Nat × List Nat × List Nat × Nat :=
  (st.isEscapeCode, st.pcEscapeCodePos, st.calls.length, cstr st.pcLastCommand,
    cstr st.pcInputString, st.cInputIndex)

/-- The bytes of the line `led 0 255 0`, in a 16-byte buffer. -/
def ledThreeParams : List Nat :=
  [108, 101, 100, 32, 48, 32, 50, 53, 53, 32, 48, 0, 0, 0, 0, 0]

/-- A world in which nothing has happened yet. -/
def World.idle : World := { leds := [], invoked := [], fault := false, pending := none }

/-- The transport after the bytes of `ledThenAb`, for the interpreter
`oneChunk`: the welcome message, the echo of each typed byte, the
line break, the chunk `OK`, and the echo of `ab`. -/
def ledThenAbTx : List (List Nat) :=
  [cstr pcWelcomeMessage, [108], [101], [100], [32], [48], [32], [50], [53], [53], [32], [48],
    [32], [48], [13, 10], [79, 75], [97], [98]]

/-- The bytes of the line `led 0 256 0 0`, in a 16-byte buffer. -/
def ledRed256 : List Nat :=
  [108, 101, 100, 32, 48, 32, 50, 53, 54, 32, 48, 32, 48, 0, 0, 0]

/-- The bytes of the line `led 16 0 0 0`, in a 16-byte buffer. -/
def ledKey16 : List Nat :=
  [108, 101, 100, 32, 49, 54, 32, 48, 32, 48, 32, 48, 0, 0, 0, 0]

/-- The bytes of the line `led 0 100000000000000000000 0 0`, in a 40-byte
buffer: the red value is the decimal integer 10^20. -/
def ledRedHuge : List Nat :=
  [108, 101, 100, 32, 48, 32, 49, 48, 48, 48, 48, 48, 48, 48, 48, 48, 48, 48, 48, 48, 48, 48,
    48, 48, 48, 48, 48, 32, 48, 32, 48, 0, 0, 0, 0, 0, 0, 0, 0, 0]

/-- The bytes of the line `led 7 256 300 -1`, in a 20-byte buffer. -/
def ledMixed : List Nat :=
  [108, 101, 100, 32, 55, 32, 50, 53, 54, 32, 51, 48, 48, 32, 45, 49, 0, 0, 0, 0]

/-- A driver whose `SeesawSetLed` always succeeds. -/
def seesawOk : Nat → Nat → Nat → Nat → Int := fun _ _ _ _ => ERROR_NONE

/-- A driver whose `SeesawSetLed` always fails, with error code -1. -/
def seesawFails : Nat → Nat → Nat → Nat → Int := fun _ _ _ _ => -1

/-! ## Lemmas on the C library functions -/

theorem length_cstr (l : List Nat) : (cstr l).length = strlen l := by
  induction l with
  | nil => rfl
  | cons b bs ih =>
    by_cases h : b = 0
    · simp [cstr, strlen, h]
    · simp [cstr, strlen, h, ih]

theorem zero_not_mem_cstr (l : List Nat) : 0 ∉ cstr l := by
  induction l with
  | nil => simp [cstr]
  | cons b bs ih =>
    by_cases h : b = 0
    · simp [cstr, h]
    · simp [cstr, h, ih]; exact fun e => h e.symm

theorem cstr_append_zero (L r : List Nat) (h : ∀ b ∈ L, b ≠ 0) : cstr (L ++ 0 :: r) = L := by
  induction L with
  | nil => simp [cstr]
  | cons b bs ih =>
    have hb : b ≠ 0 := h b (by simp)
    have := ih (fun x hx => h x (by simp [hx]))
    simp [cstr, hb, this]

theorem cstr_of_nozero (L : List Nat) (h : ∀ b ∈ L, b ≠ 0) : cstr L = L := by
  induction L with
  | nil => simp [cstr]
  | cons b bs ih =>
    have hb : b ≠ 0 := h b (by simp)
    have := ih (fun x hx => h x (by simp [hx]))
    simp [cstr, hb, this]

theorem strlen_le_length (l : List Nat) : strlen l ≤ l.length := by
  rw [← length_cstr]
  induction l with
  | nil => simp [cstr]
  | cons b bs ih =>
    by_cases h : b = 0
    · simp [cstr, h]
    · simp [cstr, h]; exact ih

theorem strncpy_nil_src (dst : List Nat) (n : Nat) (h : n ≤ dst.length) :
    strncpy dst [] n = List.replicate n 0 ++ dst.drop n := by
  induction dst generalizing n with
  | nil => simp at h; subst h; simp [strncpy]
  | cons d ds ih =>
    cases n with
    | zero => simp [strncpy]
    | succ n =>
      simp at h
      simp [strncpy, ih n h, List.replicate_succ]

theorem strncpy_eq (dst src : List Nat) (n : Nat) (h : n ≤ dst.length) :
    strncpy dst src n =
      (cstr src).take n ++ List.replicate (n - (cstr src).length) 0 ++ dst.drop n := by
  induction dst generalizing src n with
  | nil => simp at h; subst h; simp [strncpy]
  | cons d ds ih =>
    cases n with
    | zero => simp [strncpy]
    | succ n =>
      simp at h
      cases src with
      | nil => simp [strncpy, cstr, strncpy_nil_src ds n h, List.replicate_succ]
      | cons s ss =>
        by_cases hs : s = 0
        · simp [strncpy, cstr, hs, strncpy_nil_src ds n h, List.replicate_succ]
        · simp [strncpy, cstr, hs, ih ss n h]

theorem length_strncpy (dst src : List Nat) (n : Nat) : (strncpy dst src n).length = dst.length := by
  induction dst generalizing src n with
  | nil => simp [strncpy]
  | cons d ds ih =>
    cases n with
    | zero => simp [strncpy]
    | succ n =>
      cases src with
      | nil => simp [strncpy, ih]
      | cons s ss =>
        by_cases hs : s = 0
        · simp [strncpy, hs, ih]
        · simp [strncpy, hs, ih]

theorem snapshot_eq_cArray (MI : Nat) (last inp : List Nat) (h : last.length = MI) :
    (strncpy last inp (MI - 1)).set (MI - 1) 0 = cArray MI (cstr inp) := by
  cases MI with
  | zero =>
    have : last = [] := List.length_eq_zero.mp h
    subst this
    simp [strncpy, cArray]
  | succ m =>
    have hm : m ≤ last.length := by omega
    simp only [Nat.add_sub_cancel]
    rw [strncpy_eq last inp m hm, cArray]
    simp only [Nat.add_sub_cancel]
    have hlen : ((cstr inp).take m ++ List.replicate (m - (cstr inp).length) 0).length = m := by
      simp; omega
    have hdrop : (last.drop m).length = 1 := by simp; omega
    obtain ⟨x, hx⟩ := List.length_eq_one.mp hdrop
    rw [hx, List.set_append_right _ _ (by omega), hlen]
    simp only [Nat.sub_self, List.set_cons_zero, List.append_assoc]
    congr 1
    have : m + 1 - ((cstr inp).take m).length = (m - (cstr inp).length) + 1 := by
      simp; omega
    rw [this, List.replicate_succ']

theorem dispatchLoop_frame {σ : Type} (MO : Nat) (interp : Interp σ) :
    ∀ (fuel : Nat) (st st' : State σ), dispatchLoop MO interp fuel st = some st' →
      st'.cInputIndex = st.cInputIndex ∧ st'.pcLastCommand = st.pcLastCommand ∧
      st'.isEscapeCode = st.isEscapeCode ∧ st'.pcEscapeCodes = st.pcEscapeCodes ∧
      st'.pcEscapeCodePos = st.pcEscapeCodePos := by
  intro fuel
  induction fuel with
  | zero => intro st st' h; simp [dispatchLoop] at h
  | succ f ih =>
    intro st st' h
    simp only [dispatchLoop] at h
    split at h
    · have := ih _ _ h
      simpa [dispatchOnce] using this
    · simp at h
      subst h
      simp [dispatchOnce]

theorem dispatchLoop_of_finishesIn {σ : Type} (MO : Nat) (interp : Interp σ) :
    ∀ (k fuel : Nat) (st : State σ),
      finishesIn MO interp k st.cli st.pcInputString st.pcOutputString = true → k ≤ fuel →
      ∃ st', dispatchLoop MO interp fuel st = some st' ∧
        st'.calls.length = st.calls.length + k ∧
        st'.tx = st.tx ++
          (flushed MO interp k st.cli st.pcInputString st.pcOutputString).map cstr := by
  intro k
  induction k with
  | zero => intro fuel st h; simp [finishesIn] at h
  | succ k ih =>
    intro fuel st h hk
    obtain ⟨f, rfl⟩ : ∃ f, fuel = f + 1 := ⟨fuel - 1, by omega⟩
    simp only [finishesIn] at h
    simp only [dispatchLoop, flushed]
    split at h
    · rename_i hmore
      simp only [hmore, if_true]
      obtain ⟨st', h1, h2, h3⟩ := ih f (dispatchOnce MO interp st) h (by omega)
      refine ⟨st', h1, ?_, ?_⟩
      · simp [h2, dispatchOnce]; omega
      · simp [h3, dispatchOnce]
    · rename_i hmore
      simp at h
      subst h
      simp [hmore, flushed, dispatchOnce]

theorem strlen_set_zero_le (l : List Nat) (j : Nat) (h : j < l.length) :
    strlen (l.set j 0) ≤ j := by
  induction l generalizing j with
  | nil => simp at h
  | cons b bs ih =>
    cases j with
    | zero => simp [strlen]
    | succ j =>
      simp at h
      by_cases hb : b = 0
      · simp [strlen, hb]
      · simp [strlen, hb]; exact ih j h

theorem getElem?_strlen (l : List Nat) (h : strlen l < l.length) :
    l[strlen l]? = some 0 := by
  induction l with
  | nil => simp at h
  | cons b bs ih =>
    by_cases hb : b = 0
    · simp [strlen, hb]
    · simp [strlen, hb] at h ⊢
      exact ih h

theorem flushed_length {σ : Type} (MO : Nat) (interp : Interp σ) :
    ∀ (k : Nat) (s : σ) (inp out : List Nat), (flushed MO interp k s inp out).length = k := by
  intro k
  induction k with
  | zero => intros; rfl
  | succ k ih => intro s inp out; simp [flushed, ih]

theorem flushed_mem {σ : Type} (MO : Nat) (interp : Interp σ) :
    ∀ (k : Nat) (s : σ) (inp out o : List Nat), o ∈ flushed MO interp k s inp out →
      ∃ r : List Nat, o = r.set (MO - 1) 0 := by
  intro k
  induction k with
  | zero => intro s inp out o h; simp [flushed] at h
  | succ k ih =>
    intro s inp out o h
    simp only [flushed, List.mem_cons] at h
    rcases h with h | h
    · exact ⟨_, h⟩
    · exact ih _ _ _ _ h

theorem cstr_cArray (n : Nat) (s : List Nat) (h : ∀ b ∈ s, b ≠ 0) :
    cstr (cArray n s) = s.take (n - 1) := by
  have h' : ∀ b ∈ s.take (n - 1), b ≠ 0 := fun b hb => h b (List.mem_of_mem_take hb)
  cases n with
  | zero => simp [cArray, cstr]
  | succ m =>
    have : m + 1 - (s.take (m + 1 - 1)).length = (m - (s.take m).length) + 1 := by
      simp; omega
    rw [cArray, this, List.replicate_succ]
    exact cstr_append_zero _ _ h'

theorem length_cArray (n : Nat) (s : List Nat) : (cArray n s).length = n := by
  simp [cArray]

theorem isOrdinary_iff (c : Nat) :
    isOrdinary c = true ↔ c ≠ 13 ∧ c ≠ 10 ∧ c ≠ ASCII_BACKSPACE ∧ c ≠ ASCII_DELETE ∧ c ≠ ASCII_ESC := by
  simp [isOrdinary, and_assoc]

theorem step_ordinary {σ : Type} (MI MO : Nat) (interp : Interp σ) (fuel c : Nat)
    (st : State σ) (hc : isOrdinary c = true) (he : st.isEscapeCode = false) :
    step MI MO interp fuel c st = some (storeChar MI c st) := by
  obtain ⟨h1, h2, h3, h4, h5⟩ := (isOrdinary_iff c).mp hc
  simp [step, otherChar, h1, h2, h3, h4, h5, he]

theorem step_backspace {σ : Type} (MI MO : Nat) (interp : Interp σ) (fuel : Nat)
    (st : State σ) (he : st.isEscapeCode = false) :
    step MI MO interp fuel ASCII_BACKSPACE st = some (eraseChar st) := by
  simp [step, otherChar, he, ASCII_BACKSPACE]

theorem storeChar_of_lt {σ : Type} (MI c : Nat) (st : State σ) (h : st.cInputIndex < MI) :
    storeChar MI c st =
      { st with
        pcInputString := st.pcInputString.set st.cInputIndex c
        cInputIndex := (st.cInputIndex + 1) % 256
        tx := st.tx ++ [cstr [c, 0]] } := by
  simp [storeChar, h]

theorem storeChar_of_not_lt {σ : Type} (MI c : Nat) (st : State σ) (h : ¬ st.cInputIndex < MI) :
    storeChar MI c st = { st with tx := st.tx ++ [cstr [c, 0]] } := by
  simp [storeChar, h]

theorem eraseChar_of_pos {σ : Type} (st : State σ) (h : 0 < st.cInputIndex) :
    eraseChar st =
      { st with
        cInputIndex := st.cInputIndex - 1
        pcInputString := st.pcInputString.set (st.cInputIndex - 1) 0
        tx := st.tx ++ [cstr eraseSeq] } := by
  simp [eraseChar, h]

theorem eraseChar_of_zero {σ : Type} (st : State σ) (h : st.cInputIndex = 0) :
    eraseChar st = { st with tx := st.tx ++ [cstr eraseSeq] } := by
  simp [eraseChar, h]

theorem storeChar_isEscapeCode {σ : Type} (MI c : Nat) (st : State σ) :
    (storeChar MI c st).isEscapeCode = st.isEscapeCode := by
  by_cases h : st.cInputIndex < MI
  · rw [storeChar_of_lt MI c st h]
  · rw [storeChar_of_not_lt MI c st h]

theorem storeChar_pcLastCommand {σ : Type} (MI c : Nat) (st : State σ) :
    (storeChar MI c st).pcLastCommand = st.pcLastCommand := by
  by_cases h : st.cInputIndex < MI
  · rw [storeChar_of_lt MI c st h]
  · rw [storeChar_of_not_lt MI c st h]

theorem eraseChar_isEscapeCode {σ : Type} (st : State σ) :
    (eraseChar st).isEscapeCode = st.isEscapeCode := by
  by_cases h : 0 < st.cInputIndex
  · rw [eraseChar_of_pos st h]
  · rw [eraseChar_of_zero st (by omega)]

theorem typeAll_isEscapeCode {σ : Type} (MI : Nat) (bytes : List Nat) (st : State σ) :
    (typeAll MI bytes st).isEscapeCode = st.isEscapeCode := by
  induction bytes generalizing st with
  | nil => rfl
  | cons b bs ih => simp only [typeAll, List.foldl_cons] at ih ⊢; rw [ih, storeChar_isEscapeCode]

theorem typeAll_pcLastCommand {σ : Type} (MI : Nat) (bytes : List Nat) (st : State σ) :
    (typeAll MI bytes st).pcLastCommand = st.pcLastCommand := by
  induction bytes generalizing st with
  | nil => rfl
  | cons b bs ih => simp only [typeAll, List.foldl_cons] at ih ⊢; rw [ih, storeChar_pcLastCommand]

theorem eraseAll_isEscapeCode {σ : Type} (n : Nat) (st : State σ) :
    (eraseAll n st).isEscapeCode = st.isEscapeCode := by
  induction n generalizing st with
  | zero => rfl
  | succ n ih => simp only [eraseAll]; rw [ih, eraseChar_isEscapeCode]

theorem run_append {σ : Type} (MI MO : Nat) (interp : Interp σ) (fuel : Nat)
    (as bs : List Nat) (st : State σ) :
    run MI MO interp fuel (as ++ bs) st =
      (run MI MO interp fuel as st).bind (run MI MO interp fuel bs) := by
  induction as generalizing st with
  | nil => simp [run]
  | cons a as ih =>
    simp only [List.cons_append, run]
    cases step MI MO interp fuel a st with
    | none => simp
    | some st1 => simp [ih]

theorem run_ordinary {σ : Type} (MI MO : Nat) (interp : Interp σ) (fuel : Nat)
    (bytes : List Nat) (st : State σ) (hb : bytes.all isOrdinary = true)
    (he : st.isEscapeCode = false) :
    run MI MO interp fuel bytes st = some (typeAll MI bytes st) := by
  induction bytes generalizing st with
  | nil => rfl
  | cons b bs ih =>
    simp only [List.all_cons, Bool.and_eq_true] at hb
    simp only [run, step_ordinary MI MO interp fuel b st hb.1 he, Option.some_bind]
    rw [ih _ hb.2 (by rw [storeChar_isEscapeCode]; exact he)]
    rfl

theorem run_backspaces {σ : Type} (MI MO : Nat) (interp : Interp σ) (fuel n : Nat)
    (st : State σ) (he : st.isEscapeCode = false) :
    run MI MO interp fuel (List.replicate n ASCII_BACKSPACE) st = some (eraseAll n st) := by
  induction n generalizing st with
  | zero => rfl
  | succ n ih =>
    simp only [List.replicate_succ, run, step_backspace MI MO interp fuel st he, Option.some_bind]
    rw [ih _ (by rw [eraseChar_isEscapeCode]; exact he)]
    rfl

theorem typeAll_buffer {σ : Type} (MI : Nat) (bytes : List Nat) :
    ∀ (st : State σ) (pre z post : List Nat),
      st.pcInputString = pre ++ z ++ post → z.length = bytes.length →
      st.cInputIndex = pre.length → pre.length + bytes.length ≤ MI → MI ≤ 255 →
      (typeAll MI bytes st).pcInputString = pre ++ bytes ++ post ∧
      (typeAll MI bytes st).cInputIndex = pre.length + bytes.length := by
  induction bytes with
  | nil =>
    intro st pre z post h hz hc _ _
    have : z = [] := List.length_eq_zero.mp (by simpa using hz)
    subst this
    exact ⟨by simpa [typeAll] using h, by simpa [typeAll] using hc⟩
  | cons b bs ih =>
    intro st pre z post h hz hc hroom hMI
    cases z with
    | nil => simp at hz
    | cons z0 zs =>
      simp only [List.length_cons] at hz hroom
      have hlt : st.cInputIndex < MI := by omega
      have hstore : (storeChar MI b st).pcInputString = (pre ++ [b]) ++ zs ++ post ∧
          (storeChar MI b st).cInputIndex = (pre ++ [b]).length := by
        rw [storeChar_of_lt MI b st hlt]
        constructor
        · show st.pcInputString.set st.cInputIndex b = _
          rw [h, hc, List.append_assoc, List.set_append_right _ _ (Nat.le_refl _)]
          simp
        · show (st.cInputIndex + 1) % 256 = _
          rw [hc, Nat.mod_eq_of_lt (by omega)]
          simp
      have := ih (storeChar MI b st) (pre ++ [b]) zs post hstore.1 (by omega) hstore.2
        (by simp; omega) hMI
      simp only [typeAll, List.foldl_cons] at this ⊢
      simpa [Nat.add_assoc, Nat.add_comm 1] using this

theorem eraseAll_buffer {σ : Type} (n : Nat) :
    ∀ (st : State σ) (pre mid post : List Nat),
      st.pcInputString = pre ++ mid ++ post → mid.length = n →
      st.cInputIndex = pre.length + n →
      (eraseAll n st).pcInputString = pre ++ List.replicate n 0 ++ post ∧
      (eraseAll n st).cInputIndex = pre.length := by
  induction n with
  | zero =>
    intro st pre mid post h hm hc
    have : mid = [] := List.length_eq_zero.mp hm
    subst this
    exact ⟨by simpa [eraseAll] using h, by simpa [eraseAll] using hc⟩
  | succ n ih =>
    intro st pre mid post h hm hc
    obtain ⟨mid', x, rfl⟩ : ∃ mid' x, mid = mid' ++ [x] := by
      rcases List.eq_nil_or_concat mid with h0 | ⟨l, a, h1⟩
      · subst h0; simp at hm
      · exact ⟨l, a, by simpa using h1⟩
    have hm' : mid'.length = n := by simpa using hm
    have herase : (eraseChar st).pcInputString = pre ++ mid' ++ (0 :: post) ∧
        (eraseChar st).cInputIndex = pre.length + n := by
      have hpos : 0 < st.cInputIndex := by omega
      rw [eraseChar_of_pos st hpos]
      have hidx : st.cInputIndex - 1 = (pre ++ mid').length := by simp [hc, hm']
      refine ⟨?_, ?_⟩
      · show st.pcInputString.set (st.cInputIndex - 1) 0 = _
        have : pre ++ (mid' ++ [x]) ++ post = (pre ++ mid') ++ (x :: post) := by simp
        rw [h, this, hidx, List.set_append_right _ _ (Nat.le_refl _)]
        simp
      · show st.cInputIndex - 1 = _
        omega
    have := ih (eraseChar st) pre mid' (0 :: post) herase.1 hm' herase.2
    simp only [eraseAll]
    refine ⟨?_, this.2⟩
    rw [this.1, List.replicate_succ']
    simp

theorem recalled_eq_cArray (MI : Nat) (last : List Nat) :
    strncpy (memsetZero MI) last (MI - 1) = cArray MI (cstr last) := by
  cases MI with
  | zero => simp [strncpy, cArray, memsetZero]
  | succ m =>
    simp only [Nat.add_sub_cancel, memsetZero]
    rw [strncpy_eq _ last m (by simp), cArray]
    simp only [Nat.add_sub_cancel]
    have hd : (List.replicate (m + 1) 0).drop m = [0] := by simp
    rw [hd, List.append_assoc]
    congr 1
    have : m + 1 - ((cstr last).take m).length = (m - (cstr last).length) + 1 := by
      simp; omega
    rw [this, List.replicate_succ']

theorem historyRecall_buffer {σ : Type} (MI : Nat) (st : State σ) (h : MI ≤ 256) :
    (historyRecall MI st).pcInputString = cArray MI (cstr st.pcLastCommand) ∧
    (historyRecall MI st).cInputIndex = ((cstr st.pcLastCommand).take (MI - 1)).length := by
  refine ⟨recalled_eq_cArray MI _, ?_⟩
  show (if strlen (strncpy (memsetZero MI) st.pcLastCommand (MI - 1)) < MI - 1 then
    strlen st.pcLastCommand else MI - 1) % 256 = _
  rw [recalled_eq_cArray, ← length_cstr,
    cstr_cArray MI _ (fun b hb e => zero_not_mem_cstr _ (e ▸ hb)), ← length_cstr]
  simp only [List.length_take]
  split
  · rw [Nat.mod_eq_of_lt (by omega)]; omega
  · rw [Nat.mod_eq_of_lt (by omega)]; omega

theorem historyRecall_frame {σ : Type} (MI : Nat) (st : State σ) :
    (historyRecall MI st).pcLastCommand = st.pcLastCommand ∧
    (historyRecall MI st).isEscapeCode = st.isEscapeCode ∧
    (historyRecall MI st).pcEscapeCodes = st.pcEscapeCodes ∧
    (historyRecall MI st).pcEscapeCodePos = st.pcEscapeCodePos :=
  ⟨rfl, rfl, rfl, rfl⟩

theorem getElem?_cArray_tail (n : Nat) (s : List Nat) (i : Nat) (hi : i < n)
    (h : (s.take (n - 1)).length ≤ i) : (cArray n s)[i]? = some 0 := by
  rw [cArray, List.getElem?_append_right h, List.getElem?_replicate]
  simp only [List.length_take] at h ⊢
  rw [if_pos (by omega)]

theorem init_Inv {σ : Type} (MI MO : Nat) (s : σ) :
    (State.init MI MO s).Inv MI := by
  refine ⟨by simp [State.init], by simp [State.init], Nat.zero_le _, ?_, ?_, Nat.zero_lt_two⟩
  · intro i hi _
    simp [State.init, List.getElem?_replicate, hi]
  · cases MI with
    | zero => simp [State.init, strlen]
    | succ m => simp [State.init, strlen, List.replicate_succ]

theorem storeChar_Inv {σ : Type} (MI c : Nat) (st : State σ) (hMI : MI ≤ 255)
    (h : st.Inv MI) : (storeChar MI c st).Inv MI := by
  obtain ⟨h1, h2, h3, h4, h5, h6⟩ := h
  by_cases hlt : st.cInputIndex < MI
  · rw [storeChar_of_lt MI c st hlt]
    have hmod : (st.cInputIndex + 1) % 256 = st.cInputIndex + 1 := Nat.mod_eq_of_lt (by omega)
    refine ⟨by simpa using h1, h2, ?_, ?_, h5, h6⟩
    · show (st.cInputIndex + 1) % 256 ≤ MI
      omega
    · intro i hi hci
      show (st.pcInputString.set st.cInputIndex c)[i]? = some 0
      have hci' : (st.cInputIndex + 1) % 256 ≤ i := hci
      rw [List.getElem?_set_ne (by omega)]
      exact h4 i hi (by omega)
  · rw [storeChar_of_not_lt MI c st hlt]
    exact ⟨h1, h2, h3, h4, h5, h6⟩

theorem eraseChar_Inv {σ : Type} (MI : Nat) (st : State σ) (h : st.Inv MI) :
    (eraseChar st).Inv MI := by
  obtain ⟨h1, h2, h3, h4, h5, h6⟩ := h
  by_cases hpos : 0 < st.cInputIndex
  · rw [eraseChar_of_pos st hpos]
    refine ⟨by simpa using h1, h2, ?_, ?_, h5, h6⟩
    · show st.cInputIndex - 1 ≤ MI
      omega
    · intro i hi hci
      show (st.pcInputString.set (st.cInputIndex - 1) 0)[i]? = some 0
      have hci' : st.cInputIndex - 1 ≤ i := hci
      by_cases he : st.cInputIndex - 1 = i
      · rw [he, List.getElem?_set_self (by omega)]
      · rw [List.getElem?_set_ne he]
        exact h4 i hi (by omega)
  · rw [eraseChar_of_zero st (by omega)]
    exact ⟨h1, h2, h3, h4, h5, h6⟩

theorem historyRecall_Inv {σ : Type} (MI : Nat) (st : State σ) (hMI : MI ≤ 255) :
    (historyRecall MI st).pcInputString.length = MI ∧
    (historyRecall MI st).cInputIndex ≤ MI ∧
    (∀ i, i < MI → (historyRecall MI st).cInputIndex ≤ i →
      (historyRecall MI st).pcInputString[i]? = some 0) := by
  obtain ⟨hb, hc⟩ := historyRecall_buffer MI st (by omega)
  rw [hb, hc]
  refine ⟨length_cArray _ _, ?_, ?_⟩
  · simp only [List.length_take]; omega
  · intro i hi hle
    exact getElem?_cArray_tail MI _ i hi hle

theorem escapeFollow_Inv {σ : Type} (MI c : Nat) (st : State σ) (hMI : MI ≤ 255)
    (h : st.Inv MI) : (escapeFollow MI c st).Inv MI := by
  obtain ⟨h1, h2, h3, h4, h5, h6⟩ := h
  have hpos : st.pcEscapeCodePos < CLI_PC_ESCAPE_CODE_SIZE := by
    simp only [CLI_PC_MIN_ESCAPE_CODE_SIZE, CLI_PC_ESCAPE_CODE_SIZE] at h6 ⊢; omega
  have hcol : escapeCollect c st =
      { st with
        pcEscapeCodes := st.pcEscapeCodes.set st.pcEscapeCodePos c
        pcEscapeCodePos := (st.pcEscapeCodePos + 1) % 256 } := by
    simp [escapeCollect, hpos]
  simp only [escapeFollow, hcol, escapeDecide]
  split
  · split
    · obtain ⟨r1, r2, r3⟩ := historyRecall_Inv MI
        { st with
          pcEscapeCodes := st.pcEscapeCodes.set st.pcEscapeCodePos c
          pcEscapeCodePos := (st.pcEscapeCodePos + 1) % 256 } hMI
      exact ⟨r1, h2, r2, r3, h5, Nat.zero_lt_two⟩
    · exact ⟨h1, h2, h3, h4, h5, Nat.zero_lt_two⟩
  · rename_i hn
    refine ⟨h1, h2, h3, h4, h5, ?_⟩
    simpa using hn

theorem lineComplete_Inv {σ : Type} (MI MO : Nat) (interp : Interp σ) (fuel : Nat)
    (st st' : State σ) (h : st.Inv MI) (hs : lineComplete MI MO interp fuel st = some st') :
    st'.Inv MI := by
  simp only [lineComplete, Option.map_eq_some'] at hs
  obtain ⟨st1, h1, rfl⟩ := hs
  obtain ⟨-, hl, -, -, hp⟩ := dispatchLoop_frame MO interp fuel _ _ h1
  have hl' : st1.pcLastCommand = cArray MI (cstr st.pcInputString) := by
    rw [hl]; exact snapshot_eq_cArray MI _ _ h.2.1
  refine ⟨by simp [clearInput, memsetZero], ?_, Nat.zero_le _, ?_, ?_, ?_⟩
  · show st1.pcLastCommand.length = MI
    rw [hl', length_cArray]
  · intro i hi _
    simp [clearInput, memsetZero, List.getElem?_replicate, hi]
  · show strlen st1.pcLastCommand ≤ MI - 1
    rw [hl', ← length_cstr, cstr_cArray MI _ (fun b hb e => zero_not_mem_cstr _ (e ▸ hb))]
    simp only [List.length_take]; omega
  · show st1.pcEscapeCodePos < CLI_PC_MIN_ESCAPE_CODE_SIZE
    rw [hp]
    exact Nat.zero_lt_two

theorem otherChar_Inv {σ : Type} (MI c : Nat) (st : State σ) (hMI : MI ≤ 255)
    (h : st.Inv MI) : (otherChar MI c st).Inv MI := by
  unfold otherChar
  split
  · exact escapeFollow_Inv MI c st hMI h
  · split
    · exact h
    · split
      · exact eraseChar_Inv MI st h
      · split
        · obtain ⟨h1, h2, h3, h4, h5, -⟩ := h
          exact ⟨h1, h2, h3, h4, h5, Nat.zero_lt_two⟩
        · exact storeChar_Inv MI c st hMI h

theorem step_Inv {σ : Type} (MI MO : Nat) (interp : Interp σ) (fuel c : Nat)
    (st st' : State σ) (hMI : MI ≤ 255) (h : st.Inv MI)
    (hs : step MI MO interp fuel c st = some st') : st'.Inv MI := by
  unfold step at hs
  split at hs
  · exact lineComplete_Inv MI MO interp fuel st st' h hs
  · simp only [Option.some.injEq] at hs
    subst hs
    exact otherChar_Inv MI c st hMI h

theorem run_Inv {σ : Type} (MI MO : Nat) (interp : Interp σ) (fuel : Nat)
    (bytes : List Nat) (st st' : State σ) (hMI : MI ≤ 255) (h : st.Inv MI)
    (hs : run MI MO interp fuel bytes st = some st') : st'.Inv MI := by
  induction bytes generalizing st with
  | nil =>
    simp only [run, Option.some.injEq] at hs
    subst hs
    exact h
  | cons b bs ih =>
    simp only [run, Option.bind_eq_some] at hs
    obtain ⟨st1, h1, h2⟩ := hs
    exact ih st1 (step_Inv MI MO interp fuel b st st1 hMI h h1) h2

theorem Reachable.inv {σ : Type} {MI MO : Nat} {interp : Interp σ} {st : State σ}
    (hMI : MI ≤ 255) (h : Reachable MI MO interp st) : st.Inv MI := by
  obtain ⟨fuel, bytes, s, hs⟩ := h
  exact run_Inv MI MO interp fuel bytes _ st hMI (init_Inv MI MO s) hs

theorem drop_eq_replicate_of_Inv {σ : Type} (MI : Nat) (st : State σ) (h : st.Inv MI) :
    st.pcInputString.drop st.cInputIndex = List.replicate (MI - st.cInputIndex) 0 := by
  obtain ⟨h1, -, h3, h4, -, -⟩ := h
  apply List.ext_getElem?
  intro i
  rw [List.getElem?_drop, List.getElem?_replicate]
  split
  · exact h4 _ (by omega) (by omega)
  · exact List.getElem?_eq_none (by omega)

theorem storeChar_frame {σ : Type} (MI c : Nat) (st : State σ) :
    (storeChar MI c st).cli = st.cli ∧
    (storeChar MI c st).pcOutputString = st.pcOutputString ∧
    (storeChar MI c st).calls = st.calls := by
  by_cases h : st.cInputIndex < MI
  · rw [storeChar_of_lt MI c st h]; exact ⟨rfl, rfl, rfl⟩
  · rw [storeChar_of_not_lt MI c st h]; exact ⟨rfl, rfl, rfl⟩

theorem typeAll_frame {σ : Type} (MI : Nat) (bytes : List Nat) (st : State σ) :
    (typeAll MI bytes st).cli = st.cli ∧
    (typeAll MI bytes st).pcOutputString = st.pcOutputString ∧
    (typeAll MI bytes st).calls = st.calls := by
  induction bytes generalizing st with
  | nil => exact ⟨rfl, rfl, rfl⟩
  | cons b bs ih =>
    simp only [typeAll, List.foldl_cons] at ih ⊢
    obtain ⟨a1, a2, a3⟩ := ih (storeChar MI b st)
    obtain ⟨b1, b2, b3⟩ := storeChar_frame MI b st
    exact ⟨a1.trans b1, a2.trans b2, a3.trans b3⟩

theorem cArray_of_short (n : Nat) (s : List Nat) (h : s.length ≤ n - 1) :
    cArray n s = s ++ List.replicate (n - s.length) 0 := by
  rw [cArray, List.take_of_length_le h]

theorem cstr_padded (n : Nat) (s : List Nat) (hs : ∀ b ∈ s, b ≠ 0) (h : s.length < n) :
    cstr (s ++ List.replicate (n - s.length) 0) = s := by
  obtain ⟨m, hm⟩ : ∃ m, n - s.length = m + 1 := ⟨n - s.length - 1, by omega⟩
  rw [hm, List.replicate_succ]
  exact cstr_append_zero s _ hs

theorem step_erase {σ : Type} (MI MO : Nat) (interp : Interp σ) (fuel c : Nat)
    (st : State σ) (hc : c = ASCII_BACKSPACE ∨ c = ASCII_DELETE)
    (he : st.isEscapeCode = false) :
    step MI MO interp fuel c st = some (eraseChar st) := by
  rcases hc with rfl | rfl
  · simp [step, otherChar, he, ASCII_BACKSPACE]
  · simp [step, otherChar, he, ASCII_BACKSPACE, ASCII_DELETE]

theorem step_esc {σ : Type} (MI MO : Nat) (interp : Interp σ) (fuel : Nat)
    (st : State σ) (he : st.isEscapeCode = false) :
    step MI MO interp fuel ASCII_ESC st =
      some { st with isEscapeCode := true, pcEscapeCodePos := 0 } := by
  simp [step, otherChar, he, ASCII_BACKSPACE, ASCII_DELETE, ASCII_ESC]

theorem step_follow {σ : Type} (MI MO : Nat) (interp : Interp σ) (fuel c : Nat)
    (st : State σ) (hc : c ≠ 10 ∧ c ≠ 13) (he : st.isEscapeCode = true) :
    step MI MO interp fuel c st = some (escapeFollow MI c st) := by
  simp [step, otherChar, he, hc.1, hc.2]

theorem historyRecall_calls {σ : Type} (MI : Nat) (st : State σ) :
    (historyRecall MI st).calls = st.calls ∧ (historyRecall MI st).cli = st.cli :=
  ⟨rfl, rfl⟩

theorem escapeFollow_calls {σ : Type} (MI c : Nat) (st : State σ) :
    (escapeFollow MI c st).calls = st.calls ∧ (escapeFollow MI c st).cli = st.cli := by
  unfold escapeFollow escapeDecide escapeCollect
  split <;> split <;> (try split) <;> exact ⟨rfl, rfl⟩

theorem eraseChar_calls {σ : Type} (st : State σ) :
    (eraseChar st).calls = st.calls ∧ (eraseChar st).cli = st.cli := by
  by_cases h : 0 < st.cInputIndex
  · rw [eraseChar_of_pos st h]; exact ⟨rfl, rfl⟩
  · rw [eraseChar_of_zero st (by omega)]; exact ⟨rfl, rfl⟩

theorem otherChar_calls {σ : Type} (MI c : Nat) (st : State σ) :
    (otherChar MI c st).calls = st.calls ∧ (otherChar MI c st).cli = st.cli := by
  unfold otherChar
  split
  · exact escapeFollow_calls MI c st
  · split
    · exact ⟨rfl, rfl⟩
    · split
      · exact eraseChar_calls st
      · split
        · exact ⟨rfl, rfl⟩
        · obtain ⟨h1, -, h3⟩ := storeChar_frame MI c st
          exact ⟨h3, h1⟩

theorem run_no_terminator {σ : Type} (MI MO : Nat) (interp : Interp σ) (fuel : Nat)
    (bytes : List Nat) (st : State σ) (hb : ∀ b ∈ bytes, b ≠ 13 ∧ b ≠ 10) :
    ∃ st', run MI MO interp fuel bytes st = some st' ∧
      st'.calls = st.calls ∧ st'.cli = st.cli := by
  induction bytes generalizing st with
  | nil => exact ⟨st, rfl, rfl, rfl⟩
  | cons b bs ih =>
    have hb0 := hb b (by simp)
    obtain ⟨st', h1, h2, h3⟩ := ih (otherChar MI b st) (fun x hx => hb x (by simp [hx]))
    obtain ⟨c1, c2⟩ := otherChar_calls MI b st
    refine ⟨st', ?_, h2.trans c1, h3.trans c2⟩
    simp [run, step, hb0.1, hb0.2, h1]

theorem escapeFollow_first {σ : Type} (MI c : Nat) (st : State σ)
    (hpos : st.pcEscapeCodePos = 0) :
    escapeFollow MI c st =
      { st with pcEscapeCodes := st.pcEscapeCodes.set 0 c, pcEscapeCodePos := 1 } := by
  simp [escapeFollow, escapeCollect, escapeDecide, hpos, CLI_PC_ESCAPE_CODE_SIZE,
    CLI_PC_MIN_ESCAPE_CODE_SIZE]

theorem escapeFollow_second {σ : Type} (MI c : Nat) (st : State σ)
    (hpos : st.pcEscapeCodePos = 1) :
    (escapeFollow MI c st).isEscapeCode = false ∧
    (escapeFollow MI c st).pcEscapeCodePos = 0 := by
  simp only [escapeFollow, escapeCollect, escapeDecide, hpos, CLI_PC_ESCAPE_CODE_SIZE,
    CLI_PC_MIN_ESCAPE_CODE_SIZE]
  simp

theorem run_escape_sequence {σ : Type} (MI MO : Nat) (interp : Interp σ) (fuel b0 b1 : Nat)
    (st : State σ) (hesc : st.isEscapeCode = false) (h0 : b0 ≠ 10 ∧ b0 ≠ 13)
    (h1 : b1 ≠ 10 ∧ b1 ≠ 13) :
    ∃ st', run MI MO interp fuel [ASCII_ESC, b0, b1] st = some st' ∧
      st'.isEscapeCode = false ∧ st'.pcEscapeCodePos = 0 := by
  have e1 := step_esc MI MO interp fuel st hesc
  have e2 := step_follow MI MO interp fuel b0
    { st with isEscapeCode := true, pcEscapeCodePos := 0 } h0 rfl
  rw [escapeFollow_first MI b0 _ rfl] at e2
  have e3 := step_follow MI MO interp fuel b1
    { st with isEscapeCode := true, pcEscapeCodes := st.pcEscapeCodes.set 0 b0,
              pcEscapeCodePos := 1 } h1 rfl
  refine ⟨_, ?_, escapeFollow_second MI b1
    { st with isEscapeCode := true, pcEscapeCodes := st.pcEscapeCodes.set 0 b0,
              pcEscapeCodePos := 1 } rfl⟩
  simp only [run, e1, Option.some_bind, e2, e3]

theorem dispatchLoop_calls {σ : Type} (MO : Nat) (interp : Interp σ) :
    ∀ (k fuel : Nat) (st : State σ),
      finishesIn MO interp k st.cli st.pcInputString st.pcOutputString = true → k ≤ fuel →
      ∃ st' cs, dispatchLoop MO interp fuel st = some st' ∧
        st'.calls = st.calls ++ st.pcInputString :: cs ∧ cs.length + 1 = k := by
  intro k
  induction k with
  | zero => intro fuel st h; simp [finishesIn] at h
  | succ k ih =>
    intro fuel st h hk
    obtain ⟨f, rfl⟩ : ∃ f, fuel = f + 1 := ⟨fuel - 1, by omega⟩
    simp only [finishesIn] at h
    simp only [dispatchLoop]
    split at h
    · rename_i hmore
      simp only [hmore, if_true]
      obtain ⟨st', cs, h1, h2, h3⟩ := ih f (dispatchOnce MO interp st) h (by omega)
      refine ⟨st', (dispatchOnce MO interp st).pcInputString :: cs, h1, ?_, ?_⟩
      · rw [h2]; simp [dispatchOnce]
      · simp only [List.length_cons]; omega
    · rename_i hmore
      simp at h
      subst h
      exact ⟨dispatchOnce MO interp st, [], by simp [hmore], by simp [dispatchOnce], rfl⟩

theorem lineComplete_of_finishesIn {σ : Type} (MI MO : Nat) (interp : Interp σ)
    (k fuel : Nat) (st : State σ)
    (hk : finishesIn MO interp k st.cli st.pcInputString st.pcOutputString = true)
    (hfuel : k ≤ fuel) (hlast : st.pcLastCommand.length = MI) :
    ∃ st' cs, lineComplete MI MO interp fuel st = some st' ∧
      st'.calls = st.calls ++ st.pcInputString :: cs ∧ cs.length + 1 = k ∧
      st'.pcLastCommand = cArray MI (cstr st.pcInputString) ∧
      st'.pcInputString = List.replicate MI 0 ∧ st'.cInputIndex = 0 ∧
      st'.isEscapeCode = false ∧ st'.pcEscapeCodePos = 0 := by
  obtain ⟨st1, cs, h1, h2, h3⟩ := dispatchLoop_calls MO interp k fuel (snapshot MI st) hk hfuel
  obtain ⟨-, f2, f3, -, f5⟩ := dispatchLoop_frame MO interp fuel _ _ h1
  refine ⟨clearInput MI st1, cs, by simp [lineComplete, h1], h2, h3, ?_, rfl, rfl, f3, f5⟩
  show st1.pcLastCommand = _
  rw [f2]
  exact snapshot_eq_cArray MI _ _ hlast

theorem finishesIn_one_of_never_more {σ : Type} (MO : Nat) (interp : Interp σ)
    (hnever : ∀ s inp out, (interp s inp out MO).more = false) :
    ∀ (k : Nat) (s : σ) (inp out : List Nat),
      finishesIn MO interp k s inp out = true → k = 1 := by
  intro k s inp out h
  cases k with
  | zero => simp [finishesIn] at h
  | succ k =>
    simp only [finishesIn, hnever] at h
    simpa using h

theorem cstr_replicate_zero (n : Nat) : cstr (List.replicate n 0) = [] := by
  cases n with
  | zero => rfl
  | succ n => simp [List.replicate_succ, cstr]

theorem cArray_nil (n : Nat) : cArray n [] = List.replicate n 0 := by
  simp [cArray]

theorem step_total {σ : Type} (MI MO : Nat) (interp : Interp σ) (fuel c : Nat)
    (st : State σ)
    (hfin : ∀ s inp out, ∃ k, k ≤ fuel ∧ finishesIn MO interp k s inp out = true) :
    ∃ st', step MI MO interp fuel c st = some st' := by
  unfold step
  split
  · obtain ⟨k, hk, hf⟩ := hfin (snapshot MI st).cli (snapshot MI st).pcInputString
      (snapshot MI st).pcOutputString
    obtain ⟨st1, h1, -⟩ := dispatchLoop_of_finishesIn MO interp k fuel (snapshot MI st) hf hk
    exact ⟨clearInput MI st1, by simp [lineComplete, h1]⟩
  · exact ⟨_, rfl⟩

theorem run_total {σ : Type} (MI MO : Nat) (interp : Interp σ) (fuel : Nat)
    (bytes : List Nat) (st : State σ)
    (hfin : ∀ s inp out, ∃ k, k ≤ fuel ∧ finishesIn MO interp k s inp out = true) :
    ∃ st', run MI MO interp fuel bytes st = some st' := by
  induction bytes generalizing st with
  | nil => exact ⟨st, rfl⟩
  | cons b bs ih =>
    obtain ⟨st1, h1⟩ := step_total MI MO interp fuel b st hfin
    obtain ⟨st2, h2⟩ := ih st1
    exact ⟨st2, by simp [run, h1, h2]⟩

theorem tokenSpans_lower :
    ∀ (bs : List Nat) (off : Nat) (cur : Option (Nat × Nat)) (lo : Nat),
      (∀ o l, cur = some (o, l) → lo ≤ o) → lo ≤ off →
      ∀ sp ∈ tokenSpans bs off cur, lo ≤ sp.1 := by
  intro bs
  induction bs with
  | nil =>
    intro off cur lo hcur _ sp hsp
    cases cur with
    | none => simp [tokenSpans] at hsp
    | some c =>
      simp only [tokenSpans, Option.toList, List.mem_singleton] at hsp
      subst hsp
      exact hcur sp.1 sp.2 rfl
  | cons b bs ih =>
    intro off cur lo hcur hoff sp hsp
    have hhead : ∀ sp ∈ cur.toList, lo ≤ sp.1 := by
      intro sp hsp
      cases cur with
      | none => simp at hsp
      | some c =>
        simp only [Option.toList, List.mem_singleton] at hsp
        subst hsp
        exact hcur sp.1 sp.2 rfl
    simp only [tokenSpans] at hsp
    split at hsp
    · exact hhead sp hsp
    · split at hsp
      · rcases List.mem_append.mp hsp with h | h
        · exact hhead sp h
        · exact ih (off + 1) none lo (fun _ _ h => by cases h) (by omega) sp h
      · cases cur with
        | none =>
          exact ih (off + 1) (some (off, 1)) lo
            (fun o l h => by cases h; exact hoff) (by omega) sp hsp
        | some c =>
          obtain ⟨o, l⟩ := c
          exact ih (off + 1) (some (o, l + 1)) lo
            (fun o' l' h => by cases h; exact hcur o l rfl) (by omega) sp hsp

theorem tokenSpans_pairwise :
    ∀ (bs : List Nat) (off : Nat) (cur : Option (Nat × Nat)),
      (∀ o l, cur = some (o, l) → o + l = off) →
      (tokenSpans bs off cur).Pairwise (fun a b => a.1 + a.2 < b.1) := by
  intro bs
  induction bs with
  | nil =>
    intro off cur _
    cases cur <;> simp [tokenSpans]
  | cons b bs ih =>
    intro off cur hcur
    simp only [tokenSpans]
    split
    · cases cur <;> simp
    · split
      · rw [List.pairwise_append]
        refine ⟨by cases cur <;> simp, ih (off + 1) none (fun _ _ h => by cases h), ?_⟩
        intro a ha sp hsp
        have hlow := tokenSpans_lower bs (off + 1) none (off + 1)
          (fun _ _ h => by cases h) (Nat.le_refl _) sp hsp
        cases cur with
        | none => simp at ha
        | some c =>
          simp only [Option.toList, List.mem_singleton] at ha
          subst ha
          have := hcur a.1 a.2 rfl
          omega
      · cases cur with
        | none => exact ih (off + 1) (some (off, 1)) (fun o l h => by cases h; rfl)
        | some c =>
          obtain ⟨o, l⟩ := c
          exact ih (off + 1) (some (o, l + 1))
            (fun o' l' h => by cases h; have := hcur o l rfl; omega)

theorem parameters_separated (line : List Nat) (i j : Nat) (p q : Nat × Nat)
    (hi : FreeRTOS_CLIGetParameter line i = some p)
    (hj : FreeRTOS_CLIGetParameter line j = some q) (hij : i < j) :
    p.1 + p.2 < q.1 := by
  simp only [FreeRTOS_CLIGetParameter, List.get?_eq_getElem?] at hi hj
  obtain ⟨h1, e1⟩ := List.getElem?_eq_some.mp hi
  obtain ⟨h2, e2⟩ := List.getElem?_eq_some.mp hj
  have := List.pairwise_iff_getElem.mp
    (tokenSpans_pairwise line 0 none (fun _ _ h => by cases h)) i j h1 h2 hij
  rw [e1, e2] at this
  exact this

theorem drop_eq_token_append (T src : List Nat) (o l : Nat)
    (hsame : ∀ n, n < l → T[o + n]? = src[o + n]?)
    (hend : T[o + l]? = some 0 ∨ T[o + l]? = none) :
    ∃ tail, T.drop o = (src.drop o).take l ++ tail ∧ (tail = [] ∨ ∃ t, tail = 0 :: t) := by
  refine ⟨T.drop (o + l), ?_, ?_⟩
  · have h1 : (T.drop o).take l = (src.drop o).take l := by
      apply List.ext_getElem?
      intro n
      rw [List.getElem?_take, List.getElem?_take, List.getElem?_drop, List.getElem?_drop]
      split
      · exact hsame n (by assumption)
      · rfl
    rw [← h1, ← List.drop_drop, List.take_append_drop]
  · rcases hend with h | h
    · right
      obtain ⟨hlt, hv⟩ := List.getElem?_eq_some.mp h
      exact ⟨T.drop (o + l + 1), by rw [List.drop_eq_getElem_cons hlt, hv]⟩
    · left
      exact List.drop_eq_nil_of_le (List.getElem?_eq_none_iff.mp h)

theorem atoiDigits_append (ds tail : List Nat) (acc : Nat) (hd : ds.all isDigit = true)
    (htail : tail = [] ∨ ∃ t, tail = 0 :: t) :
    atoiDigits (ds ++ tail) acc = ds.foldl (fun acc d => acc * 10 + (d - 48)) acc := by
  induction ds generalizing acc with
  | nil =>
    rcases htail with rfl | ⟨t, rfl⟩
    · rfl
    · simp [atoiDigits]
  | cons d ds ih =>
    simp only [List.all_cons, Bool.and_eq_true] at hd
    have hdig : 48 ≤ d ∧ d ≤ 57 := by simpa [isDigit] using hd.1
    simp only [List.cons_append, atoiDigits, hdig, and_self, if_true, List.foldl_cons]
    exact ih _ hd.2

theorem signedValue_some (sign v : Int) (ds : List Nat) (h : signedValue sign ds = some v) :
    ds ≠ [] ∧ ds.all isDigit = true ∧ v = sign * (digitsValue ds : Int) ∧
    -2147483648 ≤ v ∧ v ≤ 2147483647 := by
  unfold signedValue at h
  split at h
  · rename_i hc
    simp only [Option.some.injEq] at h
    subst h
    exact ⟨hc.1, hc.2.1, rfl, hc.2.2.1, hc.2.2.2⟩
  · cases h

theorem isWhitespace_of_digit (b : Nat) (h : isDigit b = true) : isWhitespace b = false := by
  simp only [isDigit, Bool.and_eq_true, decide_eq_true_eq] at h
  simp only [isWhitespace, Bool.or_eq_false_iff, Bool.and_eq_false_iff, decide_eq_false_iff_not]
  omega

theorem signedDigits_of_decimalInt (tok tail : List Nat) (v : Int)
    (h : decimalInt tok = some v) (htail : tail = [] ∨ ∃ t, tail = 0 :: t) :
    signedDigits (tok ++ tail) = v := by
  cases tok with
  | nil => simp [decimalInt] at h
  | cons b ds =>
    simp only [decimalInt] at h
    by_cases h45 : b = 45
    · subst h45
      simp only [if_true] at h
      obtain ⟨-, hd, hv, -, -⟩ := signedValue_some _ _ _ h
      have hws : ¬ isWhitespace 45 = true := by decide
      simp only [signedDigits, List.cons_append, List.dropWhile_cons_of_neg hws]
      rw [atoiDigits_append ds tail 0 hd htail, hv]
      simp [digitsValue]
    · by_cases h43 : b = 43
      · subst h43
        simp only [if_neg h45, if_true] at h
        obtain ⟨-, hd, hv, -, -⟩ := signedValue_some _ _ _ h
        have hws : ¬ isWhitespace 43 = true := by decide
        simp only [signedDigits, List.cons_append, List.dropWhile_cons_of_neg hws]
        rw [atoiDigits_append ds tail 0 hd htail, hv]
        simp [digitsValue]
      · simp only [if_neg h45, if_neg h43] at h
        obtain ⟨-, hd, hv, -, -⟩ := signedValue_some _ _ _ h
        have hb : isDigit b = true := by
          simp only [List.all_cons, Bool.and_eq_true] at hd
          exact hd.1
        have hws : ¬ isWhitespace b = true := by
          rw [isWhitespace_of_digit b hb]; simp
        simp only [signedDigits, List.cons_append, List.dropWhile_cons_of_neg hws]
        have := atoiDigits_append (b :: ds) tail 0 hd htail
        simp only [List.cons_append] at this
        split
        · rename_i r heq
          simp only [List.cons.injEq] at heq
          exact absurd heq.1 h45
        · rename_i r heq
          simp only [List.cons.injEq] at heq
          exact absurd heq.1 h43
        · rw [this, hv]
          simp [digitsValue]

theorem decimalInt_range (tok : List Nat) (v : Int) (h : decimalInt tok = some v) :
    -2147483648 ≤ v ∧ v ≤ 2147483647 := by
  cases tok with
  | nil => simp [decimalInt] at h
  | cons b ds =>
    simp only [decimalInt] at h
    split at h
    · exact (signedValue_some _ _ _ h).2.2.2
    · split at h
      · exact (signedValue_some _ _ _ h).2.2.2
      · exact (signedValue_some _ _ _ h).2.2.2

theorem atoi_of_decimalInt (tok tail : List Nat) (v : Int) (h : decimalInt tok = some v)
    (htail : tail = [] ∨ ∃ t, tail = 0 :: t) : atoi (tok ++ tail) = v := by
  obtain ⟨hlo, hhi⟩ := decimalInt_range tok v h
  rw [atoi, strtol10, signedDigits_of_decimalInt tok tail v h htail]
  simp only [LONG_MAX, LONG_MIN, toInt32]
  rw [if_neg (by omega), if_neg (by omega)]
  omega

theorem getElem?_terminated (src : List Nat) (e1 e2 e3 e4 n : Nat) :
    ((((src.set e1 0).set e2 0).set e3 0).set e4 0)[n]? =
      if n = e1 ∨ n = e2 ∨ n = e3 ∨ n = e4 then
        (if n < src.length then some 0 else none)
      else src[n]? := by
  simp only [List.getElem?_set, List.length_set]
  by_cases h4 : e4 = n
  · subst h4; simp
  · by_cases h3 : e3 = n
    · subst h3; simp [h4]
    · by_cases h2 : e2 = n
      · subst h2; simp [h4, h3]
      · by_cases h1 : e1 = n
        · subst h1; simp [h4, h3, h2]
        · have h1' : ¬ n = e1 := fun h => h1 h.symm
          have h2' : ¬ n = e2 := fun h => h2 h.symm
          have h3' : ¬ n = e3 := fun h => h3 h.symm
          have h4' : ¬ n = e4 := fun h => h4 h.symm
          simp [h1, h2, h3, h4, h1', h2', h3', h4']

theorem CLI_NeotrellisSetLed_eq (seesawSetLed : Nat → Nat → Nat → Nat → Int) (w : World)
    (buf : List Nat) (len : Nat) (cmd : List Nat) (p1 p2 p3 p4 : Nat × Nat)
    (h1 : FreeRTOS_CLIGetParameter cmd 1 = some p1)
    (h2 : FreeRTOS_CLIGetParameter cmd 2 = some p2)
    (h3 : FreeRTOS_CLIGetParameter cmd 3 = some p3)
    (h4 : FreeRTOS_CLIGetParameter cmd 4 = some p4) :
    CLI_NeotrellisSetLed seesawSetLed w buf len cmd =
      if ERROR_NONE ≠ seesawSetLed (parsedByte cmd p1 p2 p3 p4 p1)
          (parsedByte cmd p1 p2 p3 p4 p2) (parsedByte cmd p1 p2 p3 p4 p3)
          (parsedByte cmd p1 p2 p3 p4 p4) then
        { cli := { w with leds := w.leds ++ [DevCall.setLed (parsedByte cmd p1 p2 p3 p4 p1)
            (parsedByte cmd p1 p2 p3 p4 p2) (parsedByte cmd p1 p2 p3 p4 p3)
            (parsedByte cmd p1 p2 p3 p4 p4)] }
          input := terminated cmd p1 p2 p3 p4
          output := snprintf buf len neoErrorText
          more := false }
      else
        { cli := { w with leds := w.leds ++ [DevCall.setLed (parsedByte cmd p1 p2 p3 p4 p1)
            (parsedByte cmd p1 p2 p3 p4 p2) (parsedByte cmd p1 p2 p3 p4 p3)
            (parsedByte cmd p1 p2 p3 p4 p4)] ++ [DevCall.orderLedUpdate] }
          input := terminated cmd p1 p2 p3 p4
          output := snprintf buf len (successText (parsedByte cmd p1 p2 p3 p4 p1)
            (parsedByte cmd p1 p2 p3 p4 p2) (parsedByte cmd p1 p2 p3 p4 p3)
            (parsedByte cmd p1 p2 p3 p4 p4))
          more := false } := by
  simp only [CLI_NeotrellisSetLed, h1, h2, h3, h4]
  rfl

theorem parsedByte_of_decimalInt (cmd : List Nat) (p1 p2 p3 p4 p : Nat × Nat) (v : Int)
    (h1 : FreeRTOS_CLIGetParameter cmd 1 = some p1)
    (h2 : FreeRTOS_CLIGetParameter cmd 2 = some p2)
    (h3 : FreeRTOS_CLIGetParameter cmd 3 = some p3)
    (h4 : FreeRTOS_CLIGetParameter cmd 4 = some p4)
    (hp : p = p1 ∨ p = p2 ∨ p = p3 ∨ p = p4)
    (hv : decimalInt (tokenAt cmd p) = some v) :
    parsedByte cmd p1 p2 p3 p4 p = toUint8 v := by
  have s12 := parameters_separated cmd 1 2 p1 p2 h1 h2 (by decide)
  have s23 := parameters_separated cmd 2 3 p2 p3 h2 h3 (by decide)
  have s34 := parameters_separated cmd 3 4 p3 p4 h3 h4 (by decide)
  have hsame : ∀ n, n < p.2 → (terminated cmd p1 p2 p3 p4)[p.1 + n]? = cmd[p.1 + n]? := by
    intro n hn
    rw [terminated, getElem?_terminated, if_neg]
    rcases hp with rfl | rfl | rfl | rfl <;> omega
  have hend : (terminated cmd p1 p2 p3 p4)[p.1 + p.2]? = some 0 ∨
      (terminated cmd p1 p2 p3 p4)[p.1 + p.2]? = none := by
    rw [terminated, getElem?_terminated, if_pos]
    · split
      · exact Or.inl rfl
      · exact Or.inr rfl
    · rcases hp with rfl | rfl | rfl | rfl <;> simp
  obtain ⟨tail, ht, htail⟩ := drop_eq_token_append _ cmd p.1 p.2 hsame hend
  rw [parsedByte, ht]
  exact congrArg toUint8 (atoi_of_decimalInt _ tail v hv htail)

theorem writeBytes_eq (buf src : List Nat) (h : src.length ≤ buf.length) :
    writeBytes buf src = src ++ buf.drop src.length := by
  induction buf generalizing src with
  | nil =>
    have : src = [] := List.length_eq_zero.mp (by simpa using h)
    subst this
    rfl
  | cons d ds ih =>
    cases src with
    | nil => rfl
    | cons s ss =>
      simp only [List.length_cons, Nat.add_le_add_iff_right] at h
      simp [writeBytes, ih ss h]

theorem cstr_snprintf (buf : List Nat) (len : Nat) (s : List Nat) (hlen : 0 < len)
    (hbuf : len ≤ buf.length) (hs : ∀ b ∈ s, b ≠ 0) :
    cstr (snprintf buf len s) = s.take (len - 1) := by
  have hne : len ≠ 0 := by omega
  have hl : (s.take (len - 1) ++ [0]).length ≤ buf.length := by
    simp only [List.length_append, List.length_take, List.length_singleton]
    omega
  rw [snprintf, if_neg hne, writeBytes_eq _ _ hl, List.append_assoc, List.singleton_append]
  exact cstr_append_zero _ _ (fun b hb => hs b (List.mem_of_mem_take hb))

theorem toUint8_eq_emod (v : Int) : (toUint8 v : Int) = v % 256 := by
  unfold toUint8
  exact Int.toNat_of_nonneg (Int.emod_nonneg v (by decide))

set_option maxRecDepth 100000 in
theorem fmtU_isDecimalOf : ∀ n, n < 256 → isDecimalOf (fmtU n) n = true := by decide

theorem toUint8_lt (v : Int) : toUint8 v < 256 := by
  have h := Int.emod_lt_of_pos v (show (0 : Int) < 256 by decide)
  have h0 := Int.emod_nonneg v (show (256 : Int) ≠ 0 by decide)
  unfold toUint8
  omega

/-! ## The claims -/

/-- C1: a line `L` of stored non-zero bytes, at most
`MAX_INPUT_LENGTH_CLI - 1` long, is typed into an empty buffer and submitted
with one terminator; whatever stored bytes are typed after that, the history
recall of lines 181-189 leaves exactly `L`, zero-padded, in the input buffer
and sets the cursor to the length of `L`. -/
theorem C1_history_recall_reproduces_line {σ : Type} (MI MO : Nat) (interp : Interp σ)
    (k fuel t : Nat) (st0 : State σ) (L typed : List Nat)
    (hMI : 7 ≤ MI ∧ MI ≤ 255)
    (hbuf : st0.pcInputString = List.replicate MI 0) (hcur : st0.cInputIndex = 0)
    (hesc : st0.isEscapeCode = false) (hlast : st0.pcLastCommand.length = MI)
    (hL : L.all (fun b => isOrdinary b && b != 0) = true) (hlen : L.length ≤ MI - 1)
    (ht : t = 13 ∨ t = 10) (htyped : typed.all isOrdinary = true)
    (hfin : finishesIn MO interp k st0.cli (L ++ List.replicate (MI - L.length) 0)
      st0.pcOutputString = true)
    (hfuel : k ≤ fuel) :
    ∃ st, run MI MO interp fuel (L ++ t :: typed) st0 = some st ∧
      (historyRecall MI st).pcInputString = L ++ List.replicate (MI - L.length) 0 ∧
      cstr (historyRecall MI st).pcInputString = L ∧
      (historyRecall MI st).cInputIndex = L.length := by
  have hLord : L.all isOrdinary = true := by
    simp only [List.all_eq_true, Bool.and_eq_true] at hL ⊢
    exact fun b hb => (hL b hb).1
  have hLnz : ∀ b ∈ L, b ≠ 0 := by
    simp only [List.all_eq_true, Bool.and_eq_true, bne_iff_ne] at hL
    exact fun b hb => (hL b hb).2
  -- the line is typed
  have hsplit : st0.pcInputString =
      [] ++ List.replicate L.length 0 ++ List.replicate (MI - L.length) 0 := by
    rw [hbuf, List.nil_append, ← List.replicate_add]
    congr 1
    omega
  obtain ⟨t1, t2⟩ := typeAll_buffer MI L st0 [] _ _ hsplit (by simp) (by simpa using hcur)
    (by simp; omega) hMI.2
  obtain ⟨f1, f2, -⟩ := typeAll_frame MI L st0
  simp only [List.nil_append, List.length_nil, Nat.zero_add] at t1 t2
  -- the terminator completes the line
  have hfin' : finishesIn MO interp k (snapshot MI (typeAll MI L st0)).cli
      (snapshot MI (typeAll MI L st0)).pcInputString
      (snapshot MI (typeAll MI L st0)).pcOutputString = true := by
    show finishesIn MO interp k (typeAll MI L st0).cli (typeAll MI L st0).pcInputString
      (typeAll MI L st0).pcOutputString = true
    rw [f1, f2, t1]
    exact hfin
  obtain ⟨st2, d1, -⟩ := dispatchLoop_of_finishesIn MO interp k fuel _ hfin' hfuel
  obtain ⟨-, d2, d3, -⟩ := dispatchLoop_frame MO interp fuel _ _ d1
  have hstep : step MI MO interp fuel t (typeAll MI L st0) = some (clearInput MI st2) := by
    have ht' : t = 10 ∨ t = 13 := ht.symm
    simp [step, ht', lineComplete, d1]
  have hlast2 : st2.pcLastCommand = cArray MI L := by
    rw [d2]
    show (strncpy (typeAll MI L st0).pcLastCommand (typeAll MI L st0).pcInputString
      (MI - 1)).set (MI - 1) 0 = _
    rw [snapshot_eq_cArray MI _ _ (by rw [typeAll_pcLastCommand]; exact hlast), t1,
      cstr_padded MI L hLnz (by omega)]
  -- more bytes are typed
  have hesc3 : (clearInput MI st2).isEscapeCode = false := d3
  refine ⟨typeAll MI typed (clearInput MI st2), ?_, ?_⟩
  · rw [run_append, run_ordinary MI MO interp fuel L st0 hLord hesc, Option.some_bind]
    simp only [run, hstep, Option.some_bind]
    exact run_ordinary MI MO interp fuel typed _ htyped hesc3
  · obtain ⟨r1, r2⟩ := historyRecall_buffer MI (typeAll MI typed (clearInput MI st2)) (by omega)
    have hl4 : (typeAll MI typed (clearInput MI st2)).pcLastCommand = cArray MI L := by
      rw [typeAll_pcLastCommand]; exact hlast2
    rw [hl4, cstr_cArray MI L hLnz, List.take_of_length_le hlen] at r1
    rw [hl4, cstr_cArray MI L hLnz, List.take_take, Nat.min_self,
      List.take_of_length_le hlen] at r2
    rw [cArray_of_short MI L hlen] at r1
    refine ⟨r1, ?_, r2⟩
    rw [r1]
    exact cstr_padded MI L hLnz (by omega)

/-- C1 on the line `led 0 255 0 0`, submitted with CR and followed by `ab`. -/
theorem C1_history_recall_reproduces_line_witness :
    ∃ st, vCommandConsoleTask 16 8 oneChunk 1 () (ledLine ++ 13 :: [97, 98]) = some st ∧
      (historyRecall 16 st).pcInputString = ledLine ++ List.replicate (16 - ledLine.length) 0 ∧
      cstr (historyRecall 16 st).pcInputString = ledLine ∧
      (historyRecall 16 st).cInputIndex = ledLine.length :=
  C1_history_recall_reproduces_line 16 8 oneChunk 1 1 13 (State.init 16 8 ()) ledLine
    [97, 98] (by decide) rfl rfl rfl rfl (by decide) (by decide) (by decide) (by decide)
    (by decide) (by decide)

/-- C2: the code at the claim's input.  With `led 0 255 0 0` submitted and `ab`
typed, the follow bytes `oa` (and `OA`) after ESC compare equal to the
recognised sequence, and the task does not recall: buffer, cursor and
transport stay as they were before the sequence. -/
theorem C2_matching_sequence_not_recalled :
    strcasecmp [111, 97, 0, 0] escapeUp = 0 ∧ strcasecmp [79, 65, 0, 0] escapeUp = 0 ∧
    (vCommandConsoleTask 16 8 oneChunk 1 () ledThenAb).map observe =
      some (false, 0, 1, ledLine, [97, 98], 2) ∧
    (vCommandConsoleTask 16 8 oneChunk 1 () (ledThenAb ++ [ASCII_ESC, 111, 97])).map observe =
      some (false, 0, 1, ledLine, [97, 98], 2) ∧
    (vCommandConsoleTask 16 8 oneChunk 1 () (ledThenAb ++ [ASCII_ESC, 79, 65])).map observe =
      some (false, 0, 1, ledLine, [97, 98], 2) ∧
    (vCommandConsoleTask 16 8 oneChunk 1 () ledThenAb).map (fun s => s.tx) =
      some ledThenAbTx ∧
    (vCommandConsoleTask 16 8 oneChunk 1 () (ledThenAb ++ [ASCII_ESC, 111, 97])).map
      (fun s => s.tx) = some ledThenAbTx ∧
    (vCommandConsoleTask 16 8 oneChunk 1 () (ledThenAb ++ [ASCII_ESC, 79, 65])).map
      (fun s => s.tx) = some ledThenAbTx :=
  ⟨rfl, rfl, rfl, rfl, rfl, rfl, rfl, rfl⟩

/-- C3: the code at the claim's input.  With `led 0 255 0 0` submitted and `ab`
typed, the follow bytes `[A` and `xy` after ESC do not compare equal to the
recognised sequence, and the task recalls: the buffer holds `led 0 255 0 0`,
the cursor is 13, and the prompt and the recalled line are written. -/
theorem C3_other_sequence_recalls :
    strcasecmp [91, 65, 0, 0] escapeUp ≠ 0 ∧ strcasecmp [120, 121, 0, 0] escapeUp ≠ 0 ∧
    (vCommandConsoleTask 16 8 oneChunk 1 () ledThenAb).map observe =
      some (false, 0, 1, ledLine, [97, 98], 2) ∧
    (vCommandConsoleTask 16 8 oneChunk 1 () (ledThenAb ++ [ASCII_ESC, 91, 65])).map observe =
      some (false, 0, 1, ledLine, ledLine, 13) ∧
    (vCommandConsoleTask 16 8 oneChunk 1 () (ledThenAb ++ [ASCII_ESC, 120, 121])).map observe =
      some (false, 0, 1, ledLine, ledLine, 13) ∧
    (vCommandConsoleTask 16 8 oneChunk 1 () ledThenAb).map (fun s => s.tx) =
      some ledThenAbTx ∧
    (vCommandConsoleTask 16 8 oneChunk 1 () (ledThenAb ++ [ASCII_ESC, 91, 65])).map
      (fun s => s.tx) = some (ledThenAbTx ++ [[27, 91, 50, 75, 13, 62], ledLine]) ∧
    (vCommandConsoleTask 16 8 oneChunk 1 () (ledThenAb ++ [ASCII_ESC, 120, 121])).map
      (fun s => s.tx) = some (ledThenAbTx ++ [[27, 91, 50, 75, 13, 62], ledLine]) :=
  ⟨by decide, by decide, rfl, rfl, rfl, rfl, rfl, rfl⟩

/-- C4 fails: with `led 0 255 0 0` submitted and `ab` typed, ESC makes the
detector active; a CR received then, or an LF received after one follow byte,
completes the line: the interpreter is invoked a second time, `pcLastCommand`
becomes `ab` and the input buffer is cleared. -/
theorem C4_counterexample :
    (vCommandConsoleTask 16 8 oneChunk 1 () (ledThenAb ++ [ASCII_ESC])).map observe =
      some (true, 0, 1, ledLine, [97, 98], 2) ∧
    (vCommandConsoleTask 16 8 oneChunk 1 () (ledThenAb ++ [ASCII_ESC, 13])).map observe =
      some (false, 0, 2, [97, 98], [], 0) ∧
    (vCommandConsoleTask 16 8 oneChunk 1 () (ledThenAb ++ [ASCII_ESC, 91])).map observe =
      some (true, 1, 1, ledLine, [97, 98], 2) ∧
    (vCommandConsoleTask 16 8 oneChunk 1 () (ledThenAb ++ [ASCII_ESC, 91, 10])).map observe =
      some (false, 0, 2, [97, 98], [], 0) :=
  ⟨rfl, rfl, rfl, rfl⟩

/-- C4 as amended: CR and LF are line terminators also while the escape
detector is active.  The line is completed (line break written,
`pcLastCommand` overwritten with the string of the input buffer, interpreter
invoked until it reports completion, input buffer cleared) and the detector
is reset to inactive with nothing collected. -/
theorem C4_terminator_completes_line_mid_escape {σ : Type} (MI MO : Nat)
    (interp : Interp σ) (k fuel c : Nat) (st : State σ) (hc : c = 10 ∨ c = 13)
    (hact : st.isEscapeCode = true) (hsz : st.Sized MI MO)
    (hk : finishesIn MO interp k st.cli st.pcInputString st.pcOutputString = true)
    (hfuel : k ≤ fuel) :
    ∃ st', step MI MO interp fuel c st = some st' ∧
      st'.isEscapeCode = false ∧ st'.pcEscapeCodePos = 0 ∧
      0 < k ∧ st'.calls.length = st.calls.length + k ∧
      st'.pcLastCommand = cArray MI (cstr st.pcInputString) ∧
      st'.pcInputString = List.replicate MI 0 ∧ st'.cInputIndex = 0 ∧
      st'.tx = st.tx ++ [[13, 10]] ++
        (flushed MO interp k st.cli st.pcInputString st.pcOutputString).map cstr := by
  have _ := hact
  obtain ⟨st1, h1, h2, h3⟩ :=
    dispatchLoop_of_finishesIn MO interp k fuel (snapshot MI st) hk hfuel
  obtain ⟨-, f2, f3, -, f5⟩ := dispatchLoop_frame MO interp fuel _ _ h1
  have hk0 : 0 < k := by
    cases k with
    | zero => simp [finishesIn] at hk
    | succ k => exact Nat.succ_pos k
  refine ⟨clearInput MI st1, ?_, f3, f5, hk0, ?_, ?_, rfl, rfl, ?_⟩
  · simp [step, hc, lineComplete, h1]
  · simpa [clearInput, snapshot] using h2
  · show st1.pcLastCommand = _
    rw [f2]; exact snapshot_eq_cArray MI _ _ hsz.2.1
  · simpa [clearInput, snapshot, cstr] using h3

/-- C4 as amended, on the state with `ab` typed and the detector active, and
the byte CR. -/
theorem C4_terminator_completes_line_mid_escape_witness :
    ∃ st', step 16 8 oneChunk 1 13
        { typeAll 16 [97, 98] (State.init 16 8 ()) with isEscapeCode := true } = some st' ∧
      st'.isEscapeCode = false ∧ st'.pcEscapeCodePos = 0 ∧
      0 < 1 ∧ st'.calls.length = 0 + 1 ∧
      st'.pcLastCommand = cArray 16 (cstr (cArray 16 [97, 98])) ∧
      st'.pcInputString = List.replicate 16 0 ∧ st'.cInputIndex = 0 ∧
      st'.tx = [cstr pcWelcomeMessage, [97], [98]] ++ [[13, 10]] ++
        (flushed 8 oneChunk 1 () (cArray 16 [97, 98]) (List.replicate 8 0)).map cstr :=
  C4_terminator_completes_line_mid_escape 16 8 oneChunk 1 1 13
    { typeAll 16 [97, 98] (State.init 16 8 ()) with isEscapeCode := true }
    (by decide) rfl (by decide) (by decide) (by decide)

/-- C5: the code at the claim's input.  From the entry state,
`MAX_INPUT_LENGTH_CLI` bytes `a` are all stored: the input buffer then holds no
zero byte at all, and its string is not shorter than the buffer. -/
theorem C5_full_buffer_has_no_terminator {σ : Type} (MI MO : Nat) (interp : Interp σ)
    (fuel : Nat) (s : σ) (hMI : 0 < MI ∧ MI ≤ 255) :
    ∃ st, vCommandConsoleTask MI MO interp fuel s (List.replicate MI 97) = some st ∧
      st.pcInputString = List.replicate MI 97 ∧ 0 ∉ st.pcInputString ∧
      strlen st.pcInputString = MI ∧ ¬ strlen st.pcInputString ≤ MI - 1 := by
  have hord : (List.replicate MI 97).all isOrdinary = true := by
    simp only [List.all_eq_true]
    intro b hb
    rw [List.eq_of_mem_replicate hb]
    decide
  obtain ⟨t1, -⟩ := typeAll_buffer MI (List.replicate MI 97) (State.init MI MO s)
    [] (List.replicate MI 0) [] (by simp [State.init]) (by simp) rfl (by simp) hMI.2
  simp only [List.nil_append, List.append_nil] at t1
  have hnz : ∀ b ∈ List.replicate MI 97, b ≠ 0 := by
    intro b hb
    rw [List.eq_of_mem_replicate hb]
    decide
  have hlen : strlen (List.replicate MI 97) = MI := by
    rw [← length_cstr, cstr_of_nozero _ hnz, List.length_replicate]
  refine ⟨_, run_ordinary MI MO interp fuel _ _ hord rfl, t1, ?_, ?_, ?_⟩
  · rw [t1]; exact fun h => hnz 0 h rfl
  · rw [t1]; exact hlen
  · rw [t1, hlen]; omega

/-- C5 at the claim's input for a 16-byte input buffer. -/
theorem C5_full_buffer_has_no_terminator_witness :
    ∃ st, vCommandConsoleTask 16 8 oneChunk 0 () (List.replicate 16 97) = some st ∧
      st.pcInputString = List.replicate 16 97 ∧ 0 ∉ st.pcInputString ∧
      strlen st.pcInputString = 16 ∧ ¬ strlen st.pcInputString ≤ 16 - 1 :=
  C5_full_buffer_has_no_terminator 16 8 oneChunk 0 () (by decide)

/-- C7: a line terminator makes the task call the interpreter until it reports
completion.  When the interpreter announces more output on its first `k - 1`
calls and completion on call `k`, the terminator is processed with exactly `k`
interpreter calls and, after the line break, exactly `k` flushes in call order;
every flushed buffer is a string of at most `MAX_OUTPUT_LENGTH_CLI - 1` bytes
that ends in a zero byte inside the buffer. -/
theorem C7_dispatch_streams_chunks {σ : Type} (MI MO : Nat) (interp : Interp σ)
    (k fuel c : Nat) (st : State σ) (hc : c = 10 ∨ c = 13)
    (hk : finishesIn MO interp k st.cli st.pcInputString st.pcOutputString = true)
    (hfuel : k ≤ fuel) :
    ∃ st', step MI MO interp fuel c st = some st' ∧
      st'.calls.length = st.calls.length + k ∧
      st'.tx = st.tx ++ [[13, 10]] ++
        (flushed MO interp k st.cli st.pcInputString st.pcOutputString).map cstr ∧
      (flushed MO interp k st.cli st.pcInputString st.pcOutputString).length = k ∧
      ∀ o ∈ flushed MO interp k st.cli st.pcInputString st.pcOutputString,
        (cstr o).length ≤ MO - 1 ∧ 0 ∉ cstr o ∧
        (MO - 1 < o.length → o[(cstr o).length]? = some 0) := by
  obtain ⟨st', h1, h2, h3⟩ := dispatchLoop_of_finishesIn MO interp k fuel (snapshot MI st) hk hfuel
  refine ⟨clearInput MI st', ?_, ?_, ?_, flushed_length MO interp k _ _ _, ?_⟩
  · simp [step, hc, lineComplete, h1]
  · simpa [clearInput, snapshot] using h2
  · simpa [clearInput, snapshot, cstr] using h3
  · intro o ho
    obtain ⟨r, rfl⟩ := flushed_mem MO interp k _ _ _ o ho
    rw [length_cstr]
    refine ⟨?_, zero_not_mem_cstr _, ?_⟩
    · by_cases hr : MO - 1 < r.length
      · exact strlen_set_zero_le r _ hr
      · have := strlen_le_length (r.set (MO - 1) 0)
        simp at this hr
        omega
    · intro hlen
      apply getElem?_strlen
      have := strlen_set_zero_le r (MO - 1) (by simpa using hlen)
      omega

/-- C7 at `k = 3`: three interpreter calls and three flushes, `A`, `B`, `C`. -/
theorem C7_dispatch_streams_chunks_witness :
    finishesIn 8 threeChunks 3 0 (cArray 16 ledLine) (List.replicate 8 0) = true ∧
    ∃ st', step 16 8 threeChunks 3 13 (ledTyped 0) = some st' ∧
      st'.calls.length = (ledTyped 0).calls.length + 3 ∧
      st'.tx = (ledTyped 0).tx ++ [[13, 10]] ++
        (flushed 8 threeChunks 3 0 (cArray 16 ledLine) (List.replicate 8 0)).map cstr ∧
      (flushed 8 threeChunks 3 0 (cArray 16 ledLine) (List.replicate 8 0)).length = 3 ∧
      ∀ o ∈ flushed 8 threeChunks 3 0 (cArray 16 ledLine) (List.replicate 8 0),
        (cstr o).length ≤ 8 - 1 ∧ 0 ∉ cstr o ∧
        (8 - 1 < o.length → o[(cstr o).length]? = some 0) :=
  ⟨by decide, C7_dispatch_streams_chunks 16 8 threeChunks 3 3 13 (ledTyped 0)
    (by decide) (by decide) (by decide)⟩

/-- C8: a line that selects the command `led` with fewer than four parameters
is answered by the dispatcher with the argument-count text; the handler
`CLI_NeotrellisSetLed` is not invoked, no call to `SeesawSetLed` or
`SeesawOrderLedUpdate` is made and no missing parameter is dereferenced. -/
theorem C8_missing_parameters_rejected (registry : List CommandDescriptor)
    (texts : ErrorTexts) (seesawSetLed : Nat → Nat → Nat → Nat → Int) (w : World)
    (line out : List Nat) (len n : Nat) (hidle : w.pending = none)
    (hsel : commandOf line = some ([108, 101, 100], n))
    (hreg : lookup registry [108, 101, 100] = some (xNeotrellisTurnLEDCommand seesawSetLed))
    (hn : n < 4) :
    (FreeRTOS_CLIProcessCommand registry texts w line out len).cli = w ∧
    (FreeRTOS_CLIProcessCommand registry texts w line out len).cli.invoked = w.invoked ∧
    (FreeRTOS_CLIProcessCommand registry texts w line out len).cli.leds = w.leds ∧
    (FreeRTOS_CLIProcessCommand registry texts w line out len).cli.fault = w.fault ∧
    (FreeRTOS_CLIProcessCommand registry texts w line out len).output =
      snprintf out len texts.argumentCount ∧
    (FreeRTOS_CLIProcessCommand registry texts w line out len).input = line ∧
    (FreeRTOS_CLIProcessCommand registry texts w line out len).more = false ∧
    (CLI_NeotrellisSetLed seesawSetLed w out len line).cli.fault = true := by
  unfold commandOf at hsel
  cases hts : tokenSpans line 0 none with
  | nil => rw [hts] at hsel; simp at hsel
  | cons sp params =>
    obtain ⟨o, l⟩ := sp
    rw [hts] at hsel
    simp only [Option.some.injEq, Prod.mk.injEq] at hsel
    obtain ⟨hname, hlen⟩ := hsel
    have hres : FreeRTOS_CLIProcessCommand registry texts w line out len =
        { cli := { w with pending := none }, input := line
          output := snprintf out len texts.argumentCount, more := false } := by
      simp only [FreeRTOS_CLIProcessCommand, hidle, Option.none_bind, hts, hname, hreg]
      simp [xNeotrellisTurnLEDCommand, hlen]
      omega
    have hw : ({ w with pending := none } : World) = w := by
      cases w; simp_all
    have h4 : FreeRTOS_CLIGetParameter line 4 = none := by
      simp only [FreeRTOS_CLIGetParameter, hts]
      apply List.get?_eq_none.mpr
      simp; omega
    rw [hres]
    refine ⟨hw, by rw [hw], by rw [hw], by rw [hw], rfl, rfl, rfl, ?_⟩
    simp only [CLI_NeotrellisSetLed, h4]
    split <;> simp_all

/-- C8 on the line `led 0 255 0`, which has three parameters. -/
theorem C8_missing_parameters_rejected_witness :
    (FreeRTOS_CLIProcessCommand [xNeotrellisTurnLEDCommand (fun _ _ _ _ => 0)] ⟨[63], [35]⟩
      World.idle ledThreeParams (List.replicate 8 0) 8).cli = World.idle ∧
    (FreeRTOS_CLIProcessCommand [xNeotrellisTurnLEDCommand (fun _ _ _ _ => 0)] ⟨[63], [35]⟩
      World.idle ledThreeParams (List.replicate 8 0) 8).cli.invoked = World.idle.invoked ∧
    (FreeRTOS_CLIProcessCommand [xNeotrellisTurnLEDCommand (fun _ _ _ _ => 0)] ⟨[63], [35]⟩
      World.idle ledThreeParams (List.replicate 8 0) 8).cli.leds = World.idle.leds ∧
    (FreeRTOS_CLIProcessCommand [xNeotrellisTurnLEDCommand (fun _ _ _ _ => 0)] ⟨[63], [35]⟩
      World.idle ledThreeParams (List.replicate 8 0) 8).cli.fault = World.idle.fault ∧
    (FreeRTOS_CLIProcessCommand [xNeotrellisTurnLEDCommand (fun _ _ _ _ => 0)] ⟨[63], [35]⟩
      World.idle ledThreeParams (List.replicate 8 0) 8).output =
      snprintf (List.replicate 8 0) 8 (ErrorTexts.mk [63] [35]).argumentCount ∧
    (FreeRTOS_CLIProcessCommand [xNeotrellisTurnLEDCommand (fun _ _ _ _ => 0)] ⟨[63], [35]⟩
      World.idle ledThreeParams (List.replicate 8 0) 8).input = ledThreeParams ∧
    (FreeRTOS_CLIProcessCommand [xNeotrellisTurnLEDCommand (fun _ _ _ _ => 0)] ⟨[63], [35]⟩
      World.idle ledThreeParams (List.replicate 8 0) 8).more = false ∧
    (CLI_NeotrellisSetLed (fun _ _ _ _ => 0) World.idle (List.replicate 8 0) 8
      ledThreeParams).cli.fault = true :=
  C8_missing_parameters_rejected [xNeotrellisTurnLEDCommand (fun _ _ _ _ => 0)] ⟨[63], [35]⟩
    (fun _ _ _ _ => 0) World.idle ledThreeParams (List.replicate 8 0) 8 3 rfl rfl rfl (by decide)

/-- C9: on CR or LF, `pcLastCommand` becomes the string held by the input
buffer when the byte arrived, cut to `MAX_INPUT_LENGTH_CLI - 1` bytes and
zero-padded, whatever the interpreter does; once the dispatch loop is over the
input buffer is all zero and the cursor is 0.  The loop is over as soon as the
interpreter reports completion. -/
theorem C9_line_completion {σ : Type} (MI MO : Nat) (interp : Interp σ)
    (fuel c : Nat) (st : State σ) (hc : c = 10 ∨ c = 13) (hsz : st.Sized MI MO) :
    (∀ st', step MI MO interp fuel c st = some st' →
      st'.pcLastCommand = cArray MI (cstr st.pcInputString) ∧
      cstr st'.pcLastCommand = (cstr st.pcInputString).take (MI - 1) ∧
      st'.pcInputString = List.replicate MI 0 ∧ st'.cInputIndex = 0) ∧
    (∀ k, finishesIn MO interp k st.cli st.pcInputString st.pcOutputString = true →
      k ≤ fuel → (step MI MO interp fuel c st).isSome = true) := by
  constructor
  · intro st' h
    simp only [step, hc, if_true, lineComplete, Option.map_eq_some'] at h
    obtain ⟨st1, h1, rfl⟩ := h
    obtain ⟨-, hl, -⟩ := dispatchLoop_frame MO interp fuel _ _ h1
    have hl' : st1.pcLastCommand = cArray MI (cstr st.pcInputString) := by
      rw [hl]; exact snapshot_eq_cArray MI _ _ hsz.2.1
    refine ⟨hl', ?_, rfl, rfl⟩
    show cstr st1.pcLastCommand = _
    rw [hl']
    exact cstr_cArray MI _ (fun b hb e => zero_not_mem_cstr _ (e ▸ hb))
  · intro k hk hfuel
    obtain ⟨st', h1, -⟩ := dispatchLoop_of_finishesIn MO interp k fuel (snapshot MI st) hk hfuel
    simp [step, hc, lineComplete, h1]

/-- C9 on the typed line `led 0 255 0 0`, submitted with CR. -/
theorem C9_line_completion_witness :
    (13 = 10 ∨ 13 = 13) ∧ (ledTyped ()).Sized 16 8 ∧
    ((∀ st', step 16 8 oneChunk 1 13 (ledTyped ()) = some st' →
      st'.pcLastCommand = cArray 16 (cstr (ledTyped ()).pcInputString) ∧
      cstr st'.pcLastCommand = (cstr (ledTyped ()).pcInputString).take (16 - 1) ∧
      st'.pcInputString = List.replicate 16 0 ∧ st'.cInputIndex = 0) ∧
    (∀ k, finishesIn 8 oneChunk k (ledTyped ()).cli (ledTyped ()).pcInputString
        (ledTyped ()).pcOutputString = true →
      k ≤ 1 → (step 16 8 oneChunk 1 13 (ledTyped ())).isSome = true)) :=
  ⟨by decide, by decide,
    C9_line_completion 16 8 oneChunk 1 13 (ledTyped ()) (by decide) (by decide)⟩

/-- C10: in a reachable state with the escape detector inactive and cursor `c`,
typing `n` stored bytes with `c + n ≤ MAX_INPUT_LENGTH_CLI` and then `n`
backspace bytes brings the input buffer and the cursor back to what they
were. -/
theorem C10_append_erase_round_trip {σ : Type} (MI MO : Nat) (interp : Interp σ)
    (fuel : Nat) (st : State σ) (bytes : List Nat) (hMI : MI ≤ 255)
    (hreach : Reachable MI MO interp st) (hesc : st.isEscapeCode = false)
    (hord : bytes.all isOrdinary = true)
    (hroom : st.cInputIndex + bytes.length ≤ MI) :
    ∃ st', run MI MO interp fuel
        (bytes ++ List.replicate bytes.length ASCII_BACKSPACE) st = some st' ∧
      st'.pcInputString = st.pcInputString ∧ st'.cInputIndex = st.cInputIndex := by
  have hinv := hreach.inv hMI
  have hdrop := drop_eq_replicate_of_Inv MI st hinv
  obtain ⟨h1, -, h3, -, -, -⟩ := hinv
  have hsplit : st.pcInputString =
      st.pcInputString.take st.cInputIndex ++ List.replicate bytes.length 0 ++
        st.pcInputString.drop (st.cInputIndex + bytes.length) := by
    have e1 : (st.pcInputString.drop st.cInputIndex).take bytes.length =
        List.replicate bytes.length 0 := by
      rw [hdrop, List.take_replicate]
      congr 1
      omega
    have e2 : st.pcInputString.drop (st.cInputIndex + bytes.length) =
        (st.pcInputString.drop st.cInputIndex).drop bytes.length := by
      rw [List.drop_drop, Nat.add_comm]
    rw [← e1, e2, List.append_assoc, List.take_append_drop, List.take_append_drop]
  have hpre : (st.pcInputString.take st.cInputIndex).length = st.cInputIndex := by
    rw [List.length_take]; omega
  obtain ⟨t1, t2⟩ := typeAll_buffer MI bytes st _ _ _ hsplit (by simp) hpre.symm
    (by rw [hpre]; exact hroom) hMI
  obtain ⟨e1, e2⟩ := eraseAll_buffer bytes.length (typeAll MI bytes st) _ bytes _ t1 rfl t2
  refine ⟨eraseAll bytes.length (typeAll MI bytes st), ?_, ?_, ?_⟩
  · rw [run_append, run_ordinary MI MO interp fuel bytes st hord hesc, Option.some_bind,
      run_backspaces MI MO interp fuel _ _ (by rw [typeAll_isEscapeCode]; exact hesc)]
  · rw [e1]; exact hsplit.symm
  · rw [e2]; exact hpre

/-- C10 after `led 0 255 0 0` has been typed: two more bytes and two
backspaces. -/
theorem C10_append_erase_round_trip_witness :
    ∃ st', run 16 8 oneChunk 0
        ([32, 49] ++ List.replicate [32, 49].length ASCII_BACKSPACE) (ledTyped ()) = some st' ∧
      st'.pcInputString = (ledTyped ()).pcInputString ∧
      st'.cInputIndex = (ledTyped ()).cInputIndex :=
  C10_append_erase_round_trip 16 8 oneChunk 0 (ledTyped ()) [32, 49] (by decide)
    ⟨0, ledLine, (), rfl⟩ (by decide) (by decide) (by decide)

/-- C11 fails: in the entry state the cursor is 0 and the detector inactive,
and a backspace byte, and likewise a delete byte, writes the erase sequence to
the transport. -/
theorem C11_counterexample :
    (State.init 16 8 ()).cInputIndex = 0 ∧ (State.init 16 8 ()).isEscapeCode = false ∧
    (step 16 8 oneChunk 1 ASCII_BACKSPACE (State.init 16 8 ())).map (fun s => s.tx) =
      some ((State.init 16 8 ()).tx ++ [[0x08, 0x20, 0x08]]) ∧
    (step 16 8 oneChunk 1 ASCII_DELETE (State.init 16 8 ())).map (fun s => s.tx) =
      some ((State.init 16 8 ()).tx ++ [[0x08, 0x20, 0x08]]) :=
  ⟨rfl, rfl, rfl, rfl⟩

/-- C11 as amended: with the detector inactive, a backspace or delete byte
always writes the erase sequence 0x08 0x20 0x08 to the transport.  When the
cursor is above 0 it is decremented and a zero byte is stored at the new
cursor; when it is 0 the buffer and the cursor stay as they are.  The two byte
values give the same state. -/
theorem C11_erase_sequence_always_written {σ : Type} (MI MO : Nat) (interp : Interp σ)
    (fuel c : Nat) (st : State σ) (hc : c = ASCII_BACKSPACE ∨ c = ASCII_DELETE)
    (hesc : st.isEscapeCode = false) :
    step MI MO interp fuel c st = some (eraseChar st) ∧
    step MI MO interp fuel ASCII_BACKSPACE st = step MI MO interp fuel ASCII_DELETE st ∧
    (eraseChar st).tx = st.tx ++ [[0x08, 0x20, 0x08]] ∧
    (0 < st.cInputIndex →
      (eraseChar st).cInputIndex = st.cInputIndex - 1 ∧
      (eraseChar st).pcInputString = st.pcInputString.set (st.cInputIndex - 1) 0) ∧
    (st.cInputIndex = 0 →
      (eraseChar st).cInputIndex = 0 ∧ (eraseChar st).pcInputString = st.pcInputString) := by
  refine ⟨step_erase MI MO interp fuel c st hc hesc, ?_, ?_, ?_, ?_⟩
  · rw [step_erase MI MO interp fuel _ st (Or.inl rfl) hesc,
      step_erase MI MO interp fuel _ st (Or.inr rfl) hesc]
  · by_cases h : 0 < st.cInputIndex
    · rw [eraseChar_of_pos st h]; rfl
    · rw [eraseChar_of_zero st (by omega)]; rfl
  · intro h
    rw [eraseChar_of_pos st h]
    exact ⟨rfl, rfl⟩
  · intro h
    rw [eraseChar_of_zero st h]
    exact ⟨h, rfl⟩

/-- C11 as amended, on the state with `led 0 255 0 0` typed and the delete
byte. -/
theorem C11_erase_sequence_always_written_witness :
    step 16 8 oneChunk 1 ASCII_DELETE (ledTyped ()) = some (eraseChar (ledTyped ())) ∧
    step 16 8 oneChunk 1 ASCII_BACKSPACE (ledTyped ()) =
      step 16 8 oneChunk 1 ASCII_DELETE (ledTyped ()) ∧
    (eraseChar (ledTyped ())).tx = (ledTyped ()).tx ++ [[0x08, 0x20, 0x08]] ∧
    (0 < (ledTyped ()).cInputIndex →
      (eraseChar (ledTyped ())).cInputIndex = (ledTyped ()).cInputIndex - 1 ∧
      (eraseChar (ledTyped ())).pcInputString =
        (ledTyped ()).pcInputString.set ((ledTyped ()).cInputIndex - 1) 0) ∧
    ((ledTyped ()).cInputIndex = 0 →
      (eraseChar (ledTyped ())).cInputIndex = 0 ∧
      (eraseChar (ledTyped ())).pcInputString = (ledTyped ()).pcInputString) :=
  C11_erase_sequence_always_written 16 8 oneChunk 1 ASCII_DELETE (ledTyped ())
    (Or.inr rfl) rfl

/-- C12: with the cursor at 0 and the detector inactive, a backspace or delete
byte changes nothing but the transport: the input buffer, the cursor (still 0,
no wrap of the 8-bit value) and `pcLastCommand` are as before. -/
theorem C12_backspace_on_empty_buffer {σ : Type} (MI MO : Nat) (interp : Interp σ)
    (fuel c : Nat) (st : State σ) (hc : c = ASCII_BACKSPACE ∨ c = ASCII_DELETE)
    (hesc : st.isEscapeCode = false) (hcur : st.cInputIndex = 0) :
    ∃ st', step MI MO interp fuel c st = some st' ∧
      st' = { st with tx := st.tx ++ [cstr eraseSeq] } ∧
      st'.pcInputString = st.pcInputString ∧ st'.cInputIndex = 0 ∧
      st'.pcLastCommand = st.pcLastCommand := by
  refine ⟨eraseChar st, step_erase MI MO interp fuel c st hc hesc, ?_⟩
  rw [eraseChar_of_zero st hcur]
  exact ⟨rfl, rfl, hcur, rfl⟩

/-- C12 in the entry state, on the backspace byte. -/
theorem C12_backspace_on_empty_buffer_witness :
    ∃ st', step 16 8 oneChunk 1 ASCII_BACKSPACE (State.init 16 8 ()) = some st' ∧
      st' = { State.init 16 8 () with tx := (State.init 16 8 ()).tx ++ [cstr eraseSeq] } ∧
      st'.pcInputString = (State.init 16 8 ()).pcInputString ∧ st'.cInputIndex = 0 ∧
      st'.pcLastCommand = (State.init 16 8 ()).pcLastCommand :=
  C12_backspace_on_empty_buffer 16 8 oneChunk 1 ASCII_BACKSPACE (State.init 16 8 ())
    (Or.inl rfl) rfl rfl

/-- C13 fails: with the 16-byte buffer full (cursor 16), after ESC and the two
follow bytes `oa` the detector is inactive again, but the next byte `x` is not
stored and the cursor is not incremented; it is only echoed. -/
theorem C13_counterexample :
    fullBuffer.isEscapeCode = false ∧
    (run 16 8 oneChunk 1 [ASCII_ESC, 111, 97] fullBuffer).map observe =
      some (false, 0, 0, [], List.replicate 16 97, 16) ∧
    (run 16 8 oneChunk 1 [ASCII_ESC, 111, 97, 120] fullBuffer).map observe =
      some (false, 0, 0, [], List.replicate 16 97, 16) ∧
    (run 16 8 oneChunk 1 [ASCII_ESC, 111, 97, 120] fullBuffer).map (fun s => s.tx) =
      some (fullBuffer.tx ++ [[120]]) :=
  ⟨rfl, rfl, rfl, rfl⟩

/-- C13 as amended: from a state with the detector inactive, ESC and two
follow bytes other than CR and LF leave the detector inactive with a collected
count of 0, whether or not the bytes match.  The next byte that is none of CR,
LF, backspace, delete and ESC is then handled by the line assembler: it is
echoed, and it is stored at the cursor, with the cursor incremented, when the
cursor is below `MAX_INPUT_LENGTH_CLI`; with a full buffer, buffer and cursor
stay as they are. -/
theorem C13_detector_returns_to_inactive {σ : Type} (MI MO : Nat) (interp : Interp σ)
    (fuel b0 b1 c : Nat) (st : State σ) (hMI : MI ≤ 255) (hesc : st.isEscapeCode = false)
    (h0 : b0 ≠ 10 ∧ b0 ≠ 13) (h1 : b1 ≠ 10 ∧ b1 ≠ 13) (hc : isOrdinary c = true) :
    ∃ st1, run MI MO interp fuel [ASCII_ESC, b0, b1] st = some st1 ∧
      st1.isEscapeCode = false ∧ st1.pcEscapeCodePos = 0 ∧
      ∃ st2, step MI MO interp fuel c st1 = some st2 ∧
        st2.isEscapeCode = false ∧ st2.tx = st1.tx ++ [cstr [c, 0]] ∧
        (st1.cInputIndex < MI →
          st2.pcInputString = st1.pcInputString.set st1.cInputIndex c ∧
          st2.cInputIndex = st1.cInputIndex + 1) ∧
        (¬ st1.cInputIndex < MI →
          st2.pcInputString = st1.pcInputString ∧ st2.cInputIndex = st1.cInputIndex) := by
  obtain ⟨st1, r1, r2, r3⟩ := run_escape_sequence MI MO interp fuel b0 b1 st hesc h0 h1
  refine ⟨st1, r1, r2, r3, storeChar MI c st1, step_ordinary MI MO interp fuel c st1 hc r2,
    ?_, ?_, ?_, ?_⟩
  · rw [storeChar_isEscapeCode]; exact r2
  · by_cases h : st1.cInputIndex < MI
    · rw [storeChar_of_lt MI c st1 h]
    · rw [storeChar_of_not_lt MI c st1 h]
  · intro h
    rw [storeChar_of_lt MI c st1 h]
    exact ⟨rfl, Nat.mod_eq_of_lt (by omega)⟩
  · intro h
    rw [storeChar_of_not_lt MI c st1 h]
    exact ⟨rfl, rfl⟩

/-- C13 as amended, on the state with `led 0 255 0 0` typed, the follow bytes
`[A` and the next byte `x`. -/
theorem C13_detector_returns_to_inactive_witness :
    ∃ st1, run 16 8 oneChunk 1 [ASCII_ESC, 91, 65] (ledTyped ()) = some st1 ∧
      st1.isEscapeCode = false ∧ st1.pcEscapeCodePos = 0 ∧
      ∃ st2, step 16 8 oneChunk 1 120 st1 = some st2 ∧
        st2.isEscapeCode = false ∧ st2.tx = st1.tx ++ [cstr [120, 0]] ∧
        (st1.cInputIndex < 16 →
          st2.pcInputString = st1.pcInputString.set st1.cInputIndex 120 ∧
          st2.cInputIndex = st1.cInputIndex + 1) ∧
        (¬ st1.cInputIndex < 16 →
          st2.pcInputString = st1.pcInputString ∧ st2.cInputIndex = st1.cInputIndex) :=
  C13_detector_returns_to_inactive 16 8 oneChunk 1 91 65 120 (ledTyped ()) (by decide) rfl
    (by decide) (by decide) rfl

/-- C14: with the detector inactive, the ESC byte only sets `isEscapeCode` and
resets the collected count to 0: the input buffer, the cursor, `pcLastCommand`
and the transport are as before. -/
theorem C14_esc_starts_detector {σ : Type} (MI MO : Nat) (interp : Interp σ)
    (fuel : Nat) (st : State σ) (hesc : st.isEscapeCode = false) :
    ∃ st', step MI MO interp fuel ASCII_ESC st = some st' ∧
      st'.isEscapeCode = true ∧ st'.pcEscapeCodePos = 0 ∧
      st'.pcInputString = st.pcInputString ∧ st'.cInputIndex = st.cInputIndex ∧
      st'.pcLastCommand = st.pcLastCommand ∧ st'.tx = st.tx ∧
      st' = { st with isEscapeCode := true, pcEscapeCodePos := 0 } :=
  ⟨_, step_esc MI MO interp fuel st hesc, rfl, rfl, rfl, rfl, rfl, rfl, rfl⟩

/-- C14 on the state with `led 0 255 0 0` typed. -/
theorem C14_esc_starts_detector_witness :
    ∃ st', step 16 8 oneChunk 1 ASCII_ESC (ledTyped ()) = some st' ∧
      st'.isEscapeCode = true ∧ st'.pcEscapeCodePos = 0 ∧
      st'.pcInputString = (ledTyped ()).pcInputString ∧
      st'.cInputIndex = (ledTyped ()).cInputIndex ∧
      st'.pcLastCommand = (ledTyped ()).pcLastCommand ∧ st'.tx = (ledTyped ()).tx ∧
      st' = { ledTyped () with isEscapeCode := true, pcEscapeCodePos := 0 } :=
  C14_esc_starts_detector 16 8 oneChunk 1 (ledTyped ()) rfl

/-- C15: from the entry of the task, a sequence of bytes without CR and LF is
processed to its end without a single call of the command interpreter, whose
state is left as it was. -/
theorem C15_no_dispatch_without_terminator {σ : Type} (MI MO : Nat) (interp : Interp σ)
    (fuel : Nat) (s : σ) (bytes : List Nat) (hb : ∀ b ∈ bytes, b ≠ 13 ∧ b ≠ 10) :
    ∃ st, vCommandConsoleTask MI MO interp fuel s bytes = some st ∧
      st.calls = [] ∧ st.cli = s :=
  run_no_terminator MI MO interp fuel bytes (State.init MI MO s) hb

/-- C15 on `led 0 255 0 0`, ESC, `[A`, backspace, with no interpreter call
allowed at all. -/
theorem C15_no_dispatch_without_terminator_witness :
    ∃ st, vCommandConsoleTask 16 8 oneChunk 0 () (ledLine ++ [27, 91, 65, 8]) = some st ∧
      st.calls = [] ∧ st.cli = () :=
  C15_no_dispatch_without_terminator 16 8 oneChunk 0 () (ledLine ++ [27, 91, 65, 8])
    (by decide)

/-- C16: on a line with four parameters, `CLI_NeotrellisSetLed` calls
`SeesawSetLed` once; when that call returns a value other than `ERROR_NONE`,
no call to `SeesawOrderLedUpdate` follows, the handler returns `pdFALSE`, and
the output buffer receives the twelve bytes of `Neo Error!`, CR, LF, cut to
`xWriteBufferLen - 1` bytes and ended by a zero byte. -/
theorem C16_led_failure_path (seesawSetLed : Nat → Nat → Nat → Nat → Int) (w : World)
    (buf : List Nat) (len : Nat) (cmd : List Nat) (p1 p2 p3 p4 : Nat × Nat)
    (h1 : FreeRTOS_CLIGetParameter cmd 1 = some p1)
    (h2 : FreeRTOS_CLIGetParameter cmd 2 = some p2)
    (h3 : FreeRTOS_CLIGetParameter cmd 3 = some p3)
    (h4 : FreeRTOS_CLIGetParameter cmd 4 = some p4) :
    ∃ k r g b rest,
      (CLI_NeotrellisSetLed seesawSetLed w buf len cmd).cli.leds =
        w.leds ++ DevCall.setLed k r g b :: rest ∧
      (seesawSetLed k r g b ≠ ERROR_NONE →
        rest = [] ∧
        (CLI_NeotrellisSetLed seesawSetLed w buf len cmd).more = false ∧
        (CLI_NeotrellisSetLed seesawSetLed w buf len cmd).output =
          snprintf buf len [78, 101, 111, 32, 69, 114, 114, 111, 114, 33, 13, 10] ∧
        (0 < len → len ≤ buf.length →
          cstr (CLI_NeotrellisSetLed seesawSetLed w buf len cmd).output =
            ([78, 101, 111, 32, 69, 114, 114, 111, 114, 33, 13, 10] : List Nat).take (len - 1)) ∧
        (12 < len → len ≤ buf.length →
          cstr (CLI_NeotrellisSetLed seesawSetLed w buf len cmd).output =
            [78, 101, 111, 32, 69, 114, 114, 111, 114, 33, 13, 10])) := by
  have hcstr : 0 < len → len ≤ buf.length →
      cstr (snprintf buf len [78, 101, 111, 32, 69, 114, 114, 111, 114, 33, 13, 10]) =
        ([78, 101, 111, 32, 69, 114, 114, 111, 114, 33, 13, 10] : List Nat).take (len - 1) :=
    fun hl hb => cstr_snprintf buf len _ hl hb (by decide)
  rw [CLI_NeotrellisSetLed_eq seesawSetLed w buf len cmd p1 p2 p3 p4 h1 h2 h3 h4]
  by_cases herr : ERROR_NONE ≠ seesawSetLed (parsedByte cmd p1 p2 p3 p4 p1)
      (parsedByte cmd p1 p2 p3 p4 p2) (parsedByte cmd p1 p2 p3 p4 p3)
      (parsedByte cmd p1 p2 p3 p4 p4)
  · rw [if_pos herr]
    refine ⟨parsedByte cmd p1 p2 p3 p4 p1, parsedByte cmd p1 p2 p3 p4 p2,
      parsedByte cmd p1 p2 p3 p4 p3, parsedByte cmd p1 p2 p3 p4 p4,
      [], rfl, fun _ => ⟨rfl, rfl, rfl, hcstr, ?_⟩⟩
    intro hl hb
    show cstr (snprintf buf len [78, 101, 111, 32, 69, 114, 114, 111, 114, 33, 13, 10]) = _
    have h12 : ([78, 101, 111, 32, 69, 114, 114, 111, 114, 33, 13, 10] : List Nat).length ≤
        len - 1 := by
      simp only [List.length_cons, List.length_nil]
      omega
    rw [hcstr (by omega) hb, List.take_of_length_le h12]
  · rw [if_neg herr]
    refine ⟨parsedByte cmd p1 p2 p3 p4 p1, parsedByte cmd p1 p2 p3 p4 p2,
      parsedByte cmd p1 p2 p3 p4 p3, parsedByte cmd p1 p2 p3 p4 p4,
      [DevCall.orderLedUpdate], by simp, fun hne => ?_⟩
    exact absurd (fun h => hne h.symm) herr

/-- C16 on the line `led 7 256 300 -1` and a driver that fails: one call
`SeesawSetLed(7, 0, 44, 255)` and the text `Neo Error!`, CR, LF. -/
theorem C16_led_failure_path_witness :
    (∃ k r g b rest,
      (CLI_NeotrellisSetLed seesawFails World.idle (List.replicate 40 0) 40 ledMixed).cli.leds =
        World.idle.leds ++ DevCall.setLed k r g b :: rest ∧
      (seesawFails k r g b ≠ ERROR_NONE →
        rest = [] ∧
        (CLI_NeotrellisSetLed seesawFails World.idle (List.replicate 40 0) 40 ledMixed).more =
          false ∧
        (CLI_NeotrellisSetLed seesawFails World.idle (List.replicate 40 0) 40 ledMixed).output =
          snprintf (List.replicate 40 0) 40 [78, 101, 111, 32, 69, 114, 114, 111, 114, 33, 13, 10] ∧
        (0 < 40 → 40 ≤ (List.replicate 40 0).length →
          cstr (CLI_NeotrellisSetLed seesawFails World.idle (List.replicate 40 0) 40
            ledMixed).output =
            ([78, 101, 111, 32, 69, 114, 114, 111, 114, 33, 13, 10] : List Nat).take (40 - 1)) ∧
        (12 < 40 → 40 ≤ (List.replicate 40 0).length →
          cstr (CLI_NeotrellisSetLed seesawFails World.idle (List.replicate 40 0) 40
            ledMixed).output = [78, 101, 111, 32, 69, 114, 114, 111, 114, 33, 13, 10]))) ∧
    (CLI_NeotrellisSetLed seesawFails World.idle (List.replicate 40 0) 40 ledMixed).cli.leds =
      [DevCall.setLed 7 0 44 255] ∧
    (CLI_NeotrellisSetLed seesawFails World.idle (List.replicate 40 0) 40 ledMixed).output =
      [78, 101, 111, 32, 69, 114, 114, 111, 114, 33, 13, 10] ++ List.replicate 28 0 ∧
    (CLI_NeotrellisSetLed seesawFails World.idle (List.replicate 40 0) 4 ledMixed).output =
      [78, 101, 111] ++ List.replicate 37 0 :=
  ⟨C16_led_failure_path seesawFails World.idle (List.replicate 40 0) 40 ledMixed
    (4, 1) (6, 3) (10, 3) (14, 2) rfl rfl rfl rfl, rfl, rfl, rfl⟩

/-- C17 fails: on `led 0 100000000000000000000 0 0` the red parameter is the
decimal integer 10^20, whose value modulo 256 is 0, and the handler sets and
reports red 255: `SeesawSetLed(0, 255, 0, 0)` and `Success! Key:0 R:255 G:0
B:0`. -/
theorem C17_counterexample :
    FreeRTOS_CLIGetParameter ledRedHuge 2 = some (6, 21) ∧
    (tokenAt ledRedHuge (6, 21)).all isDigit = true ∧
    digitsValue (tokenAt ledRedHuge (6, 21)) = 100000000000000000000 ∧
    (100000000000000000000 : Int) % 256 = 0 ∧
    (CLI_NeotrellisSetLed seesawOk World.idle (List.replicate 40 0) 40 ledRedHuge).cli.leds =
      [DevCall.setLed 0 255 0 0, DevCall.orderLedUpdate] ∧
    cstr (CLI_NeotrellisSetLed seesawOk World.idle (List.replicate 40 0) 40 ledRedHuge).output =
      [83, 117, 99, 99, 101, 115, 115, 33, 32, 75, 101, 121, 58, 48, 32, 82, 58, 50, 53, 53,
        32, 71, 58, 48, 32, 66, 58, 48, 13, 10, 32] :=
  ⟨rfl, rfl, rfl, by decide, rfl, rfl⟩

/-- C17 as amended: on a line whose four parameters are decimal integers `v1`
to `v4` within the range of a C `int`, when `SeesawSetLed` succeeds the handler
has called it with the four values reduced modulo 256, then
`SeesawOrderLedUpdate`; it returns `pdFALSE` and prints `Success! Key:`, ` R:`,
` G:`, ` B:`, each followed by the decimal numeral of the same reduced value,
then CR, LF and a space, into the output buffer.  A value of 256 is set and
reported as 0. -/
theorem C17_led_success_path (seesawSetLed : Nat → Nat → Nat → Nat → Int) (w : World)
    (buf : List Nat) (len : Nat) (cmd : List Nat) (p1 p2 p3 p4 : Nat × Nat)
    (v1 v2 v3 v4 : Int)
    (h1 : FreeRTOS_CLIGetParameter cmd 1 = some p1)
    (h2 : FreeRTOS_CLIGetParameter cmd 2 = some p2)
    (h3 : FreeRTOS_CLIGetParameter cmd 3 = some p3)
    (h4 : FreeRTOS_CLIGetParameter cmd 4 = some p4)
    (hv1 : decimalInt (tokenAt cmd p1) = some v1)
    (hv2 : decimalInt (tokenAt cmd p2) = some v2)
    (hv3 : decimalInt (tokenAt cmd p3) = some v3)
    (hv4 : decimalInt (tokenAt cmd p4) = some v4)
    (hok : seesawSetLed (toUint8 v1) (toUint8 v2) (toUint8 v3) (toUint8 v4) = ERROR_NONE) :
    (CLI_NeotrellisSetLed seesawSetLed w buf len cmd).cli.leds =
      w.leds ++ [DevCall.setLed (toUint8 v1) (toUint8 v2) (toUint8 v3) (toUint8 v4),
        DevCall.orderLedUpdate] ∧
    (CLI_NeotrellisSetLed seesawSetLed w buf len cmd).more = false ∧
    (∃ dk dr dg db : List Nat,
      isDecimalOf dk (toUint8 v1) = true ∧ isDecimalOf dr (toUint8 v2) = true ∧
      isDecimalOf dg (toUint8 v3) = true ∧ isDecimalOf db (toUint8 v4) = true ∧
      (CLI_NeotrellisSetLed seesawSetLed w buf len cmd).output =
        snprintf buf len
          ([83, 117, 99, 99, 101, 115, 115, 33, 32, 75, 101, 121, 58] ++ dk ++
            [32, 82, 58] ++ dr ++ [32, 71, 58] ++ dg ++ [32, 66, 58] ++ db ++ [13, 10, 32])) ∧
    ((toUint8 v1 : Int) = v1 % 256 ∧ (toUint8 v2 : Int) = v2 % 256 ∧
      (toUint8 v3 : Int) = v3 % 256 ∧ (toUint8 v4 : Int) = v4 % 256) ∧
    toUint8 256 = 0 := by
  have e1 := parsedByte_of_decimalInt cmd p1 p2 p3 p4 p1 v1 h1 h2 h3 h4 (Or.inl rfl) hv1
  have e2 := parsedByte_of_decimalInt cmd p1 p2 p3 p4 p2 v2 h1 h2 h3 h4
    (Or.inr (Or.inl rfl)) hv2
  have e3 := parsedByte_of_decimalInt cmd p1 p2 p3 p4 p3 v3 h1 h2 h3 h4
    (Or.inr (Or.inr (Or.inl rfl))) hv3
  have e4 := parsedByte_of_decimalInt cmd p1 p2 p3 p4 p4 v4 h1 h2 h3 h4
    (Or.inr (Or.inr (Or.inr rfl))) hv4
  rw [CLI_NeotrellisSetLed_eq seesawSetLed w buf len cmd p1 p2 p3 p4 h1 h2 h3 h4,
    e1, e2, e3, e4, if_neg (by rw [hok]; exact fun h => h rfl)]
  refine ⟨by simp, rfl,
    ⟨fmtU (toUint8 v1), fmtU (toUint8 v2), fmtU (toUint8 v3), fmtU (toUint8 v4),
      fmtU_isDecimalOf _ (toUint8_lt v1), fmtU_isDecimalOf _ (toUint8_lt v2),
      fmtU_isDecimalOf _ (toUint8_lt v3), fmtU_isDecimalOf _ (toUint8_lt v4), rfl⟩,
    ⟨toUint8_eq_emod v1, toUint8_eq_emod v2, toUint8_eq_emod v3, toUint8_eq_emod v4⟩, by decide⟩

/-- C17 as amended, on the line `led 7 256 300 -1`: the LED 7 is set to, and the
report shows, red 0, green 44 and blue 255. -/
theorem C17_led_success_path_witness :
    ((CLI_NeotrellisSetLed seesawOk World.idle (List.replicate 40 0) 40 ledMixed).cli.leds =
      World.idle.leds ++ [DevCall.setLed (toUint8 7) (toUint8 256) (toUint8 300) (toUint8 (-1)),
        DevCall.orderLedUpdate] ∧
    (CLI_NeotrellisSetLed seesawOk World.idle (List.replicate 40 0) 40 ledMixed).more = false ∧
    (∃ dk dr dg db : List Nat,
      isDecimalOf dk (toUint8 7) = true ∧ isDecimalOf dr (toUint8 256) = true ∧
      isDecimalOf dg (toUint8 300) = true ∧ isDecimalOf db (toUint8 (-1)) = true ∧
      (CLI_NeotrellisSetLed seesawOk World.idle (List.replicate 40 0) 40 ledMixed).output =
        snprintf (List.replicate 40 0) 40
          ([83, 117, 99, 99, 101, 115, 115, 33, 32, 75, 101, 121, 58] ++ dk ++
            [32, 82, 58] ++ dr ++ [32, 71, 58] ++ dg ++ [32, 66, 58] ++ db ++ [13, 10, 32])) ∧
    ((toUint8 7 : Int) = 7 % 256 ∧ (toUint8 256 : Int) = 256 % 256 ∧
      (toUint8 300 : Int) = 300 % 256 ∧ (toUint8 (-1) : Int) = -1 % 256) ∧
    toUint8 256 = 0) ∧
    (CLI_NeotrellisSetLed seesawOk World.idle (List.replicate 40 0) 40 ledMixed).cli.leds =
      [DevCall.setLed 7 0 44 255, DevCall.orderLedUpdate] ∧
    cstr (CLI_NeotrellisSetLed seesawOk World.idle (List.replicate 40 0) 40 ledMixed).output =
      [83, 117, 99, 99, 101, 115, 115, 33, 32, 75, 101, 121, 58, 55, 32, 82, 58, 48, 32, 71, 58,
        52, 52, 32, 66, 58, 50, 53, 53, 13, 10, 32] :=
  ⟨C17_led_success_path seesawOk World.idle (List.replicate 40 0) 40 ledMixed
    (4, 1) (6, 3) (10, 3) (14, 2) 7 256 300 (-1) rfl rfl rfl rfl rfl rfl rfl rfl rfl, rfl, rfl⟩

/-- C18: the code at the claim's input.  On `led 16 0 0 0`, whose key number is
outside 0..15, the handler calls `SeesawSetLed(16, 0, 0, 0)` and
`SeesawOrderLedUpdate` and reports success; on `led 0 256 0 0`, whose red value
is outside 0..255, it sets red 0 and reports success.  No error is printed. -/
theorem C18_out_of_range_values_are_set :
    (CLI_NeotrellisSetLed seesawOk World.idle (List.replicate 40 0) 40 ledKey16).cli.leds =
      [DevCall.setLed 16 0 0 0, DevCall.orderLedUpdate] ∧
    cstr (CLI_NeotrellisSetLed seesawOk World.idle (List.replicate 40 0) 40 ledKey16).output =
      [83, 117, 99, 99, 101, 115, 115, 33, 32, 75, 101, 121, 58, 49, 54, 32, 82, 58, 48, 32, 71,
        58, 48, 32, 66, 58, 48, 13, 10, 32] ∧
    (CLI_NeotrellisSetLed seesawOk World.idle (List.replicate 40 0) 40 ledRed256).cli.leds =
      [DevCall.setLed 0 0 0 0, DevCall.orderLedUpdate] ∧
    cstr (CLI_NeotrellisSetLed seesawOk World.idle (List.replicate 40 0) 40 ledRed256).output =
      [83, 117, 99, 99, 101, 115, 115, 33, 32, 75, 101, 121, 58, 48, 32, 82, 58, 48, 32, 71, 58,
        48, 32, 66, 58, 48, 13, 10, 32] :=
  ⟨rfl, rfl, rfl, rfl⟩

/-- C19: a line typed and terminated by CR then LF is completed twice.  The
dispatch loop runs first on the buffer holding the line and then on the
cleared buffer (one interpreter call each when the interpreter never announces
more output); `pcLastCommand` ends up all zero, the empty string, and a
history recall right after leaves the input buffer all zero with cursor 0.
When the line `L` has no zero byte, fits in `MAX_INPUT_LENGTH_CLI - 1` bytes
and was typed into an empty buffer, the first buffer is `L`, zero-padded. -/
theorem C19_cr_lf_erases_history {σ : Type} (MI MO : Nat) (interp : Interp σ)
    (fuel : Nat) (st0 : State σ) (L : List Nat) (hMI : 7 ≤ MI ∧ MI ≤ 255)
    (hesc : st0.isEscapeCode = false) (hlast : st0.pcLastCommand.length = MI)
    (hL : L.all isOrdinary = true)
    (hfin : ∀ s inp out, ∃ k, k ≤ fuel ∧ finishesIn MO interp k s inp out = true) :
    ∃ st cs1 cs2, run MI MO interp fuel (L ++ [13, 10]) st0 = some st ∧
      st.calls = st0.calls ++ ((typeAll MI L st0).pcInputString :: cs1) ++
        (List.replicate MI 0 :: cs2) ∧
      ((∀ s inp out, (interp s inp out MO).more = false) → cs1 = [] ∧ cs2 = []) ∧
      st.pcLastCommand = List.replicate MI 0 ∧ cstr st.pcLastCommand = [] ∧
      (historyRecall MI st).pcInputString = List.replicate MI 0 ∧
      cstr (historyRecall MI st).pcInputString = [] ∧
      (historyRecall MI st).cInputIndex = 0 ∧
      (st0.pcInputString = List.replicate MI 0 → st0.cInputIndex = 0 →
        (∀ b ∈ L, b ≠ 0) → L.length ≤ MI - 1 →
        (typeAll MI L st0).pcInputString = L ++ List.replicate (MI - L.length) 0 ∧
        cstr (typeAll MI L st0).pcInputString = L) := by
  -- first completion, on CR
  obtain ⟨k1, hk1, hf1⟩ := hfin (typeAll MI L st0).cli (typeAll MI L st0).pcInputString
    (typeAll MI L st0).pcOutputString
  obtain ⟨st1, cs1, c1, c2, c3, c4, c5, c6, c7, -⟩ :=
    lineComplete_of_finishesIn MI MO interp k1 fuel (typeAll MI L st0) hf1 hk1
      (by rw [typeAll_pcLastCommand]; exact hlast)
  -- second completion, on LF
  obtain ⟨k2, hk2, hf2⟩ := hfin st1.cli st1.pcInputString st1.pcOutputString
  obtain ⟨st2, cs2, d1, d2, d3, d4, -, -, -, -⟩ :=
    lineComplete_of_finishesIn MI MO interp k2 fuel st1 hf2 hk2
      (by rw [c4, length_cArray])
  have hlast2 : st2.pcLastCommand = List.replicate MI 0 := by
    rw [d4, c5, cstr_replicate_zero, cArray_nil]
  obtain ⟨r1, r2⟩ := historyRecall_buffer MI st2 (by omega)
  rw [hlast2, cstr_replicate_zero] at r1 r2
  rw [cArray_nil] at r1
  obtain ⟨-, -, f3⟩ := typeAll_frame MI L st0
  refine ⟨st2, cs1, cs2, ?_, ?_, ?_, hlast2, ?_, r1, ?_, ?_, ?_⟩
  · rw [run_append, run_ordinary MI MO interp fuel L st0 hL hesc, Option.some_bind]
    simp [run, step, c1, d1]
  · rw [d2, c2, f3, c5]
  · intro hnever
    have e1 := finishesIn_one_of_never_more MO interp hnever k1 _ _ _ hf1
    have e2 := finishesIn_one_of_never_more MO interp hnever k2 _ _ _ hf2
    exact ⟨List.length_eq_zero.mp (by omega), List.length_eq_zero.mp (by omega)⟩
  · rw [hlast2, cstr_replicate_zero]
  · rw [r1, cstr_replicate_zero]
  · simpa using r2
  · intro hbuf hcur hnz hlen
    have hsplit : st0.pcInputString =
        [] ++ List.replicate L.length 0 ++ List.replicate (MI - L.length) 0 := by
      rw [hbuf, List.nil_append, ← List.replicate_add]
      congr 1
      omega
    obtain ⟨t1, -⟩ := typeAll_buffer MI L st0 [] _ _ hsplit (by simp) (by simpa using hcur)
      (by simp; omega) hMI.2
    simp only [List.nil_append] at t1
    refine ⟨t1, ?_⟩
    rw [t1]
    exact cstr_padded MI L hnz (by omega)

/-- C19 on the line `led 0 255 0 0` from the entry state, with an interpreter
that answers every line in one call. -/
theorem C19_cr_lf_erases_history_witness :
    ∃ st cs1 cs2, run 16 8 oneChunk 1 (ledLine ++ [13, 10]) (State.init 16 8 ()) = some st ∧
      st.calls = (State.init 16 8 ()).calls ++
        ((typeAll 16 ledLine (State.init 16 8 ())).pcInputString :: cs1) ++
        (List.replicate 16 0 :: cs2) ∧
      ((∀ s inp out, (oneChunk s inp out 8).more = false) → cs1 = [] ∧ cs2 = []) ∧
      st.pcLastCommand = List.replicate 16 0 ∧ cstr st.pcLastCommand = [] ∧
      (historyRecall 16 st).pcInputString = List.replicate 16 0 ∧
      cstr (historyRecall 16 st).pcInputString = [] ∧
      (historyRecall 16 st).cInputIndex = 0 ∧
      ((State.init 16 8 ()).pcInputString = List.replicate 16 0 →
        (State.init 16 8 ()).cInputIndex = 0 →
        (∀ b ∈ ledLine, b ≠ 0) → ledLine.length ≤ 16 - 1 →
        (typeAll 16 ledLine (State.init 16 8 ())).pcInputString =
          ledLine ++ List.replicate (16 - ledLine.length) 0 ∧
        cstr (typeAll 16 ledLine (State.init 16 8 ())).pcInputString = ledLine) :=
  C19_cr_lf_erases_history 16 8 oneChunk 1 (State.init 16 8 ()) ledLine (by decide) rfl rfl
    (by decide) (fun _ _ _ => ⟨1, Nat.le_refl 1, rfl⟩)

/-- C20: at every boundary between two iterations of the task's loop, for
`MAX_INPUT_LENGTH_CLI` between 7 and 255: the cursor is at most
`MAX_INPUT_LENGTH_CLI`; every input byte from the cursor on is zero;
`pcLastCommand` holds a string of at most `MAX_INPUT_LENGTH_CLI - 1` bytes
ended by a zero byte inside the array, so that a history recall fills exactly
the input buffer and gives a cursor of at most `MAX_INPUT_LENGTH_CLI - 1`; and
fewer than `CLI_PC_MIN_ESCAPE_CODE_SIZE` follow bytes are collected, so that
collecting one more never takes the overflow branch of line 172.  The loop
reaches every boundary when the interpreter completes each line. -/
theorem C20_loop_invariant {σ : Type} (MI MO : Nat) (interp : Interp σ) (fuel : Nat)
    (s : σ) (bytes : List Nat) (hMI : 7 ≤ MI ∧ MI ≤ 255) :
    ((∀ s inp out, ∃ k, k ≤ fuel ∧ finishesIn MO interp k s inp out = true) →
      ∃ st, vCommandConsoleTask MI MO interp fuel s bytes = some st) ∧
    ∀ st, vCommandConsoleTask MI MO interp fuel s bytes = some st →
      st.pcInputString.length = MI ∧ st.cInputIndex ≤ MI ∧
      (∀ i, i < MI → st.cInputIndex ≤ i → st.pcInputString[i]? = some 0) ∧
      st.pcLastCommand.length = MI ∧ strlen st.pcLastCommand ≤ MI - 1 ∧
      st.pcLastCommand[strlen st.pcLastCommand]? = some 0 ∧
      (historyRecall MI st).pcInputString.length = MI ∧
      (historyRecall MI st).cInputIndex ≤ MI - 1 ∧
      st.pcEscapeCodePos < CLI_PC_MIN_ESCAPE_CODE_SIZE ∧
      ∀ c, (escapeCollect c st).isEscapeCode = st.isEscapeCode ∧
        (escapeCollect c st).pcEscapeCodePos = st.pcEscapeCodePos + 1 := by
  refine ⟨fun hfin => run_total MI MO interp fuel bytes _ hfin, ?_⟩
  intro st hrun
  obtain ⟨h1, h2, h3, h4, h5, h6⟩ :=
    run_Inv MI MO interp fuel bytes _ st hMI.2 (init_Inv MI MO s) hrun
  obtain ⟨r1, r2⟩ := historyRecall_buffer MI st (by omega)
  have hpos : st.pcEscapeCodePos < CLI_PC_ESCAPE_CODE_SIZE := by
    simp only [CLI_PC_MIN_ESCAPE_CODE_SIZE, CLI_PC_ESCAPE_CODE_SIZE] at h6 ⊢
    omega
  refine ⟨h1, h3, h4, h2, h5, getElem?_strlen _ (by omega), ?_, ?_, h6, ?_⟩
  · rw [r1, length_cArray]
  · rw [r2, List.length_take]; omega
  · intro c
    have hcol : escapeCollect c st =
        { st with
          pcEscapeCodes := st.pcEscapeCodes.set st.pcEscapeCodePos c
          pcEscapeCodePos := (st.pcEscapeCodePos + 1) % 256 } := by
      simp [escapeCollect, hpos]
    rw [hcol]
    refine ⟨rfl, ?_⟩
    show (st.pcEscapeCodePos + 1) % 256 = _
    simp only [CLI_PC_ESCAPE_CODE_SIZE] at hpos
    exact Nat.mod_eq_of_lt (by omega)

/-- C20 for 16-byte input buffers, on `led 0 255 0 0`, CR, `ab`, ESC, `[A`. -/
theorem C20_loop_invariant_witness :
    ((∀ s inp out, ∃ k, k ≤ 1 ∧ finishesIn 8 oneChunk k s inp out = true) →
      ∃ st, vCommandConsoleTask 16 8 oneChunk 1 () (ledThenAb ++ [27, 91, 65]) = some st) ∧
    ∀ st, vCommandConsoleTask 16 8 oneChunk 1 () (ledThenAb ++ [27, 91, 65]) = some st →
      st.pcInputString.length = 16 ∧ st.cInputIndex ≤ 16 ∧
      (∀ i, i < 16 → st.cInputIndex ≤ i → st.pcInputString[i]? = some 0) ∧
      st.pcLastCommand.length = 16 ∧ strlen st.pcLastCommand ≤ 16 - 1 ∧
      st.pcLastCommand[strlen st.pcLastCommand]? = some 0 ∧
      (historyRecall 16 st).pcInputString.length = 16 ∧
      (historyRecall 16 st).cInputIndex ≤ 16 - 1 ∧
      st.pcEscapeCodePos < CLI_PC_MIN_ESCAPE_CODE_SIZE ∧
      ∀ c, (escapeCollect c st).isEscapeCode = st.isEscapeCode ∧
        (escapeCollect c st).pcEscapeCodePos = st.pcEscapeCodePos + 1 :=
  C20_loop_invariant 16 8 oneChunk 1 () (ledThenAb ++ [27, 91, 65]) (by decide)

end CliThread
